import Mathlib

/-!
Verification of the agentos goal/task pipeline core: the task lifecycle
state machine, the capability router, the decompose stage's ordinal
rewriting, the resilient invocation layer (model selection, retry,
fallback, timeout, key-casing normalization), and the dependency
scheduler.  Each definition is a shallow embedding of the corresponding
TypeScript function; external effects (the generative call, the adapter)
are abstracted as oracle parameters.
-/

namespace AgentOS

/-- Task lifecycle statuses, from the `TaskStatus` union type
(`pending | claimed | in_progress | blocked | review | completed | failed`). -/
inductive TaskStatus where
  | pending
  | claimed
  | in_progress
  | blocked
  | review
  | completed
  | failed
deriving DecidableEq, Repr

/-- Render a status the way the error message interpolates it. -/
def TaskStatus.label : TaskStatus → String
  | .pending => "pending"
  | .claimed => "claimed"
  | .in_progress => "in_progress"
  | .blocked => "blocked"
  | .review => "review"
  | .completed => "completed"
  | .failed => "failed"

/-- The `Task` record (fields relevant to the core pipeline). -/
structure Task where
  id : String
  goalId : String
  description : String
  type : String
  status : TaskStatus
  requiredCapabilities : List String
  dependencies : List String
  estimatedEffort : String
  assignedTo : Option String
  claimedAt : Option String
  completedAt : Option String
  result : Option String
deriving DecidableEq, Repr

/-- The `Result` record returned by `StateMachine.transition`. -/
structure TransitionResult where
  success : Bool
  error : Option String
deriving DecidableEq, Repr

/-- The transition table of `StateMachine` (`#transitions` Map):
pending -> claimed; claimed -> in_progress, failed; in_progress ->
blocked, completed, failed; blocked -> in_progress, failed; completed ->
(terminal); failed -> pending.  `review` has no entry, exactly as in the
source Map. -/
def transitions : List (TaskStatus × List TaskStatus) :=
  [ (.pending, [.claimed])
  , (.claimed, [.in_progress, .failed])
  , (.in_progress, [.blocked, .completed, .failed])
  , (.blocked, [.in_progress, .failed])
  , (.completed, [])
  , (.failed, [.pending]) ]

/-- `StateMachine.canTransition`: look the source status up in the table;
a missing entry means false. -/
def canTransition (fromStatus toStatus : TaskStatus) : Bool :=
  match transitions.lookup fromStatus with
  | some allowed => allowed.contains toStatus
  | none => false

/-- `StateMachine.transition`: on a disallowed pair return a failure
result and leave the task untouched; otherwise set the status and stamp
`claimedAt` on entering `claimed`, `completedAt` on entering `completed`
or `failed`.  The wall clock (`new Date().toISOString()`) is passed in as
`now`. -/
def transition (task : Task) (newStatus : TaskStatus) (now : String) :
    Task × TransitionResult :=
  if !canTransition task.status newStatus then
    (task, { success := false
           , error := some ("Cannot transition " ++ task.status.label
               ++ " -> " ++ newStatus.label) })
  else
    let t1 : Task := { task with status := newStatus }
    let t2 : Task :=
      if newStatus = TaskStatus.claimed then { t1 with claimedAt := some now } else t1
    let t3 : Task :=
      if newStatus = TaskStatus.completed ∨ newStatus = TaskStatus.failed then
        { t2 with completedAt := some now }
      else t2
    (t3, { success := true, error := none })

/-- A fully concrete task used to instantiate hypothesis-bearing theorems. -/
def sampleTask (st : TaskStatus) : Task :=
  { id := "g-task-1", goalId := "g", description := "demo", type := "code"
  , status := st, requiredCapabilities := [], dependencies := []
  , estimatedEffort := "1h", assignedTo := none, claimedAt := none
  , completedAt := none, result := none }

/-- C7: for every task and every status pair not in the transition table,
`transition` returns a failure result carrying a descriptive error, and
the returned task is the input task unchanged in every field (the
embedding is a total function, so no exception is possible). -/
theorem transition_disallowed_no_mutation (task : Task) (newStatus : TaskStatus)
    (now : String) (h : canTransition task.status newStatus = false) :
    (transition task newStatus now).1 = task ∧
    (transition task newStatus now).2.success = false ∧
    ((transition task newStatus now).2.error).isSome = true := by
  simp [transition, h]

/-- Witness for C7 at a concrete input: a `completed` task asked to move
back to `pending` is rejected and unchanged. -/
theorem transition_disallowed_no_mutation_witness :
    canTransition (sampleTask .completed).status .pending = false ∧
    (transition (sampleTask .completed) .pending "t0").1 = sampleTask .completed ∧
    (transition (sampleTask .completed) .pending "t0").2.success = false := by
  refine ⟨by decide, ?_, ?_⟩
  · exact (transition_disallowed_no_mutation (sampleTask .completed) .pending "t0"
      (by decide)).1
  · exact (transition_disallowed_no_mutation (sampleTask .completed) .pending "t0"
      (by decide)).2.1

/-- C8: for every pair in the transition table, `transition` succeeds,
the status becomes the target, `claimedAt` is stamped exactly when the
target is `claimed`, `completedAt` exactly when the target is `completed`
or `failed`, and no other field changes. -/
theorem transition_allowed_stamps (task : Task) (newStatus : TaskStatus)
    (now : String) (h : canTransition task.status newStatus = true) :
    (transition task newStatus now).2.success = true ∧
    (transition task newStatus now).1.status = newStatus ∧
    (transition task newStatus now).1.claimedAt =
      (if newStatus = TaskStatus.claimed then some now else task.claimedAt) ∧
    (transition task newStatus now).1.completedAt =
      (if newStatus = TaskStatus.completed ∨ newStatus = TaskStatus.failed then
        some now else task.completedAt) ∧
    (transition task newStatus now).1.id = task.id ∧
    (transition task newStatus now).1.goalId = task.goalId ∧
    (transition task newStatus now).1.dependencies = task.dependencies ∧
    (transition task newStatus now).1.assignedTo = task.assignedTo ∧
    (transition task newStatus now).1.result = task.result := by
  simp only [transition, h, Bool.not_true, Bool.false_eq_true, if_false]
  by_cases hc : newStatus = TaskStatus.claimed
  · subst hc
    simp
  · by_cases hf : newStatus = TaskStatus.completed ∨ newStatus = TaskStatus.failed
    · simp [hc, hf]
    · simp [hc, hf]

/-- Witness for C8 at a concrete input: `pending -> claimed` stamps
`claimedAt` and leaves `completedAt` alone. -/
theorem transition_allowed_stamps_witness :
    canTransition (sampleTask .pending).status .claimed = true ∧
    (transition (sampleTask .pending) .claimed "t1").1.status = .claimed ∧
    (transition (sampleTask .pending) .claimed "t1").1.claimedAt = some "t1" ∧
    (transition (sampleTask .pending) .claimed "t1").1.completedAt = none := by
  have h := transition_allowed_stamps (sampleTask .pending) .claimed "t1" (by decide)
  refine ⟨by decide, h.2.1, ?_, ?_⟩
  · have := h.2.2.1
    simpa using this
  · have := h.2.2.2.1
    simpa [sampleTask] using this

/-! ## Capability router (`Pipeline.#findBestAgent`) -/

/-- The `AgentConfig` record (worker descriptor). -/
structure AgentConfig where
  id : String
  name : String
  capabilities : List String
  teams : List String
  maxParallelTasks : Nat
  isActive : Bool
deriving DecidableEq, Repr

/-- The `TeamConfig` record: ordered roster of member agent ids. -/
structure TeamConfig where
  id : String
  name : String
  agents : List String
  goalsDir : String
deriving DecidableEq, Repr

/-- The slices of `Config` the router consults: the agent registry and
the team registry (string-keyed records, embedded as association lists). -/
structure RouterConfig where
  agents : List (String × AgentConfig)
  teams : List (String × TeamConfig)
deriving Repr

/-- `team.agents.map(id => config.agents[id]).filter(a => a?.isActive)`:
the team roster resolved against the registry, restricted to active
agents, in roster order. -/
def activeTeamAgents (config : RouterConfig) (team : TeamConfig) : List AgentConfig :=
  team.agents.filterMap fun aid =>
    match config.agents.lookup aid with
    | some a => if a.isActive then some a else none
    | none => none

/-- `task.requiredCapabilities.every(cap => agent.capabilities.includes(cap))`. -/
def hasCapabilities (task : Task) (agent : AgentConfig) : Bool :=
  task.requiredCapabilities.all fun cap => agent.capabilities.contains cap

/-- `Pipeline.#findBestAgent`: unknown team yields none; otherwise the
first active roster member whose capability set covers the task's
required capabilities; otherwise the first active roster member;
otherwise none. -/
def findBestAgent (config : RouterConfig) (task : Task) (teamId : String) :
    Option AgentConfig :=
  match config.teams.lookup teamId with
  | none => none
  | some team =>
    let teamAgents := activeTeamAgents config team
    match teamAgents.find? (hasCapabilities task) with
    | some agent => some agent
    | none => teamAgents.head?

/-- C9: restricted to the team's active roster in order, the router
returns the first capability-superset match; with no match it returns
the first active roster member; and it returns none exactly when the
team id is unknown or the active roster is empty. -/
theorem findBestAgent_spec (config : RouterConfig) (task : Task) (teamId : String) :
    (∀ team, config.teams.lookup teamId = some team →
      (∀ a, (activeTeamAgents config team).find? (hasCapabilities task) = some a →
        findBestAgent config task teamId = some a) ∧
      ((activeTeamAgents config team).find? (hasCapabilities task) = none →
        findBestAgent config task teamId = (activeTeamAgents config team).head?)) ∧
    (findBestAgent config task teamId = none ↔
      config.teams.lookup teamId = none ∨
      ∃ team, config.teams.lookup teamId = some team ∧
        activeTeamAgents config team = []) := by
  constructor
  · intro team hteam
    constructor
    · intro a ha
      simp [findBestAgent, hteam, ha]
    · intro hnone
      simp [findBestAgent, hteam, hnone]
  · constructor
    · intro hnone
      cases hlook : config.teams.lookup teamId with
      | none => exact Or.inl rfl
      | some team =>
        refine Or.inr ⟨team, rfl, ?_⟩
        unfold findBestAgent at hnone
        rw [hlook] at hnone
        simp only at hnone
        cases hfind : (activeTeamAgents config team).find? (hasCapabilities task) with
        | none =>
          simp only [hfind] at hnone
          exact List.head?_eq_none_iff.mp hnone
        | some a =>
          simp only [hfind] at hnone
          simp at hnone
    · rintro (hnone | ⟨team, hteam, hempty⟩)
      · simp [findBestAgent, hnone]
      · simp [findBestAgent, hteam, hempty]

/-- A worker with research and writing capabilities, for concrete routing
examples. -/
def demoWorker (active : Bool) : AgentConfig :=
  { id := "w1", name := "W1", capabilities := ["research", "writing"]
  , teams := ["t1"], maxParallelTasks := 1, isActive := active }

/-- A one-team registry holding `demoWorker active`. -/
def demoRouterConfig (active : Bool) : RouterConfig :=
  { agents := [("w1", demoWorker active)]
  , teams := [("t1", { id := "t1", name := "T1", agents := ["w1"], goalsDir := "g" })] }

/-- A task requiring the research capability. -/
def researchTask : Task :=
  { sampleTask .pending with requiredCapabilities := ["research"] }

/-- Witness for C9: a task requiring research against a one-member team
whose active worker has research and writing capabilities is routed to
that worker; against a team with zero active workers the router yields
none. -/
theorem findBestAgent_spec_witness :
    findBestAgent (demoRouterConfig true) researchTask "t1" = some (demoWorker true) ∧
    findBestAgent (demoRouterConfig false) researchTask "t1" = none := by
  constructor
  · exact ((findBestAgent_spec (demoRouterConfig true) researchTask "t1").1
      { id := "t1", name := "T1", agents := ["w1"], goalsDir := "g" } (by decide)).1
      (demoWorker true) (by decide)
  · exact (findBestAgent_spec (demoRouterConfig false) researchTask "t1").2.mpr
      (Or.inr ⟨{ id := "t1", name := "T1", agents := ["w1"], goalsDir := "g" },
        by decide, by decide⟩)

/-! ## Decompose stage (`LLMDecomposeStage.run`, ordinal rewriting) -/

/-- The `Goal` record (fields the decompose stage reads). -/
structure Goal where
  id : String
  teamId : String
  description : String
  successCriteria : List String
  context : Option String
deriving Repr

/-- One element of the schema-validated decomposition output
(`TaskSchema`): dependencies are optional 0-based ordinals into the same
batch. -/
structure DecomposeTaskSpec where
  description : String
  type : String
  requiredCapabilities : List String
  estimatedEffort : String
  dependencies : Option (List Nat)
deriving DecidableEq, Repr

/-- `Array.prototype.map` with the element index, starting at `start`. -/
def mapWithIndexFrom (f : Nat → α → β) (start : Nat) : List α → List β
  | [] => []
  | a :: as => f start a :: mapWithIndexFrom f (start + 1) as

/-- The pure tail of `LLMDecomposeStage.run`: convert the validated
decomposition into `Task` objects, deriving ids as
`{goalId}-task-{index+1}` and rewriting each ordinal dependency `d` into
`{goalId}-task-{d+1}`.  The source performs no check of any kind on the
ordinals (the batch metadata bag is not modeled). -/
def decomposeRun (goal : Goal) (validatedTasks : List DecomposeTaskSpec) : List Task :=
  mapWithIndexFrom
    (fun index t =>
      { id := goal.id ++ "-task-" ++ toString (index + 1)
      , goalId := goal.id
      , description := t.description
      , type := t.type
      , status := .pending
      , requiredCapabilities := t.requiredCapabilities
      , dependencies :=
          (t.dependencies.map fun ds =>
            ds.map fun d => goal.id ++ "-task-" ++ toString (d + 1)).getD []
      , estimatedEffort := t.estimatedEffort
      , assignedTo := none, claimedAt := none, completedAt := none
      , result := none })
    0 validatedTasks

theorem mapWithIndexFrom_length (f : Nat → α → β) (start : Nat) (l : List α) :
    (mapWithIndexFrom f start l).length = l.length := by
  induction l generalizing start with
  | nil => rfl
  | cons a as ih => simp [mapWithIndexFrom, ih]

theorem decomposeRun_length (goal : Goal) (validatedTasks : List DecomposeTaskSpec) :
    (decomposeRun goal validatedTasks).length = validatedTasks.length := by
  unfold decomposeRun
  exact mapWithIndexFrom_length _ 0 validatedTasks

theorem mapWithIndexFrom_get (f : Nat → α → β) (start : Nat) (l : List α)
    (j : Nat) (h : j < l.length) :
    (mapWithIndexFrom f start l).get ⟨j, by rw [mapWithIndexFrom_length]; exact h⟩ =
      f (start + j) (l.get ⟨j, h⟩) := by
  induction l generalizing start j with
  | nil => exact absurd h (by simp)
  | cons a as ih =>
    cases j with
    | zero => rfl
    | succ j' =>
      have h' : j' < as.length := Nat.lt_of_succ_lt_succ h
      have := ih (start + 1) j' h'
      simpa [mapWithIndexFrom, Nat.add_assoc, Nat.add_comm 1 j'] using this

/-- The goal used in concrete decomposition examples. -/
def demoGoal : Goal :=
  { id := "g", teamId := "t1", description := "demo goal"
  , successCriteria := ["done"], context := none }

/-- A validated decomposition element whose ordinal dependency list names
its own 0-based position. -/
def selfDepSpec : DecomposeTaskSpec :=
  { description := "t", type := "code", requiredCapabilities := []
  , estimatedEffort := "1h", dependencies := some [0] }

/-- Counterexample to C1: on a decomposition whose single task lists its
own ordinal 0, `run` returns normally (it has no rejection path after
schema validation) and the one task it returns carries its own id in its
dependency set. -/
theorem decompose_self_reference_counterexample :
    (decomposeRun demoGoal [selfDepSpec]).map
      (fun t => t.dependencies.contains t.id) = [true] := by
  decide

/-- C1 amended: the decompose stage performs no self-reference check; a
task whose ordinal dependency list contains its own position `i` is
returned with its own id `{goalId}-task-{i+1}` inside its dependency
set, and the batch is returned without any failure. -/
theorem decompose_rewrites_self_ordinal (goal : Goal)
    (validatedTasks : List DecomposeTaskSpec) (i : Nat)
    (h : i < validatedTasks.length)
    (hself : i ∈ ((validatedTasks.get ⟨i, h⟩).dependencies.getD [])) :
    ((decomposeRun goal validatedTasks).get
        ⟨i, by rw [decomposeRun_length]; exact h⟩).id ∈
      ((decomposeRun goal validatedTasks).get
        ⟨i, by rw [decomposeRun_length]; exact h⟩).dependencies := by
  have hget := mapWithIndexFrom_get
    (fun index t =>
      { id := goal.id ++ "-task-" ++ toString (index + 1)
      , goalId := goal.id
      , description := t.description
      , type := t.type
      , status := .pending
      , requiredCapabilities := t.requiredCapabilities
      , dependencies :=
          (t.dependencies.map fun ds =>
            ds.map fun d => goal.id ++ "-task-" ++ toString (d + 1)).getD []
      , estimatedEffort := t.estimatedEffort
      , assignedTo := none, claimedAt := none, completedAt := none
      , result := none } : Nat → DecomposeTaskSpec → Task)
    0 validatedTasks i h
  unfold decomposeRun
  rw [hget]
  simp only [Nat.zero_add]
  cases hdeps : (validatedTasks.get ⟨i, h⟩).dependencies with
  | none => rw [hdeps] at hself; simp at hself
  | some ds =>
    rw [hdeps] at hself
    simp only [Option.getD_some] at hself
    simp only [Option.map_some', Option.getD_some]
    exact List.mem_map.mpr ⟨i, hself, rfl⟩

/-- Witness for the amended C1 at the concrete self-referential batch. -/
theorem decompose_rewrites_self_ordinal_witness :
    (0 < ([selfDepSpec] : List DecomposeTaskSpec).length) ∧
    ((decomposeRun demoGoal [selfDepSpec]).get
        ⟨0, by rw [decomposeRun_length]; decide⟩).id ∈
      ((decomposeRun demoGoal [selfDepSpec]).get
        ⟨0, by rw [decomposeRun_length]; decide⟩).dependencies := by
  refine ⟨by decide, ?_⟩
  exact decompose_rewrites_self_ordinal demoGoal [selfDepSpec] 0 (by decide) (by decide)

/-! ## JSON values and key-casing normalization (`camelCaseKeys`) -/

/-- JSON-like values: null, primitives, arrays and string-keyed objects
(object entries in insertion order, as JS `Object.entries` yields them). -/
inductive Json where
  | null
  | bool (b : Bool)
  | num (n : Int)
  | str (s : String)
  | arr (items : List Json)
  | obj (fields : List (String × Json))
deriving Repr

/-- One left-to-right scan of
`key.replace(/_([a-z])/g, (_, c) => c.toUpperCase())` over the key's
characters: an underscore immediately followed by an ASCII lowercase
letter is replaced by that letter's uppercase form, and scanning resumes
after the consumed pair; any other character is copied. -/
def camelKey : List Char → List Char
  | [] => []
  | [c] => [c]
  | a :: b :: rest =>
    if a = '_' ∧ b.isLower then b.toUpper :: camelKey rest
    else a :: camelKey (b :: rest)

/-- The key conversion on strings. -/
def camelStr (s : String) : String := String.mk (camelKey s.data)

/-- JS object property assignment `result[k] = v` on an entry list:
replace the value in place if the key exists, append otherwise. -/
def insertAssign (fields : List (String × Json)) (k : String) (v : Json) :
    List (String × Json) :=
  if fields.any fun kv => kv.1 = k then
    fields.map fun kv => if kv.1 = k then (k, v) else kv
  else fields ++ [(k, v)]

/-- Building the fresh `result` object by assigning each converted entry
in order. -/
def buildObj (entries : List (String × Json)) : List (String × Json) :=
  entries.foldl (fun acc kv => insertAssign acc kv.1 kv.2) []

mutual
/-- `camelCaseKeys`: recursively convert snake_case keys to camelCase.
Arrays map elementwise; objects rebuild `result` from their entries with
converted keys and recursively converted values; other values are
returned unchanged. -/
def camelCaseKeys : Json → Json
  | .null => .null
  | .bool b => .bool b
  | .num n => .num n
  | .str s => .str s
  | .arr items => .arr (camelCaseKeysList items)
  | .obj fields => .obj (buildObj (camelCaseKeysFields fields))

/-- Elementwise `camelCaseKeys` over an array's items. -/
def camelCaseKeysList : List Json → List Json
  | [] => []
  | x :: xs => camelCaseKeys x :: camelCaseKeysList xs

/-- Entrywise key conversion and recursive value conversion over an
object's entries (before the object is rebuilt by assignment). -/
def camelCaseKeysFields : List (String × Json) → List (String × Json)
  | [] => []
  | kv :: fs => (camelStr kv.1, camelCaseKeys kv.2) :: camelCaseKeysFields fs
end

theorem char_toNat_ofNat_valid {m : Nat} (h : m < 55296) :
    (Char.ofNat m).toNat = m := by
  unfold Char.ofNat
  rw [dif_pos (Or.inl h)]
  unfold Char.ofNatAux
  simp [Char.toNat, UInt32.toNat]

theorem isLower_toNat {c : Char} (h : c.isLower = true) :
    97 ≤ c.toNat ∧ c.toNat ≤ 122 := by
  simp only [Char.isLower, ge_iff_le, Bool.and_eq_true, decide_eq_true_eq] at h
  obtain ⟨h1, h2⟩ := h
  constructor
  · exact UInt32.le_toNat_of_le (by decide) h1
  · exact UInt32.toNat_le_of_le (by decide) h2

theorem toUpper_toNat {c : Char} (h : c.isLower = true) :
    c.toUpper.toNat = c.toNat - 32 := by
  obtain ⟨h1, h2⟩ := isLower_toNat h
  unfold Char.toUpper
  rw [if_pos ⟨h1, h2⟩]
  exact char_toNat_ofNat_valid (by omega)

theorem toUpper_ne_underscore {c : Char} (h : c.isLower = true) :
    c.toUpper ≠ '_' := by
  intro heq
  have hup := toUpper_toNat h
  rw [heq] at hup
  have h95 : ('_').toNat = 95 := rfl
  rw [h95] at hup
  obtain ⟨h1, h2⟩ := isLower_toNat h
  omega

theorem toUpper_not_isLower {c : Char} (h : c.isLower = true) :
    c.toUpper.isLower = false := by
  obtain ⟨h1, h2⟩ := isLower_toNat h
  have hup : c.toUpper.val.toNat = c.toNat - 32 := toUpper_toNat h
  simp only [Char.isLower, ge_iff_le, Bool.and_eq_true, decide_eq_true_eq]
  rw [Bool.eq_false_iff]
  intro hcon
  rw [Bool.and_eq_true, decide_eq_true_eq, decide_eq_true_eq] at hcon
  have h3 : (97 : Nat) ≤ c.toUpper.val.toNat := UInt32.le_toNat_of_le (by decide) hcon.1
  have h4 : c.toUpper.val.toNat = c.toNat - 32 := hup
  omega

/-- The two-or-more-characters unfolding of the scan. -/
theorem camelKey_cons_cons (a b : Char) (rest : List Char) :
    camelKey (a :: b :: rest) =
      if a = '_' ∧ b.isLower then b.toUpper :: camelKey rest
      else a :: camelKey (b :: rest) := rfl

/-- A character that cannot start a regex match passes through the scan. -/
theorem camelKey_cons_ne (x : Char) (t : List Char) (hx : x ≠ '_') :
    camelKey (x :: t) = x :: camelKey t := by
  cases t with
  | nil => rfl
  | cons b rest =>
    rw [camelKey_cons_cons, if_neg]
    intro hcon
    exact hx hcon.1

/-- The head of a scanned nonempty list is either the original head or an
uppercased letter. -/
theorem camelKey_head (a : Char) (t : List Char) :
    (∃ rest, camelKey (a :: t) = a :: camelKey rest) ∨
    (∃ b rest, b.isLower = true ∧ t = b :: rest ∧
      camelKey (a :: t) = b.toUpper :: camelKey rest) := by
  cases t with
  | nil => exact Or.inl ⟨[], rfl⟩
  | cons b rest =>
    by_cases hm : a = '_' ∧ b.isLower
    · exact Or.inr ⟨b, rest, hm.2, rfl, by rw [camelKey_cons_cons, if_pos hm]⟩
    · exact Or.inl ⟨b :: rest, by rw [camelKey_cons_cons, if_neg hm]⟩

theorem camelKey_idem_aux (n : Nat) :
    ∀ l : List Char, l.length ≤ n → camelKey (camelKey l) = camelKey l := by
  induction n with
  | zero =>
    intro l hl
    rw [List.length_eq_zero.mp (Nat.le_zero.mp hl)]
    rfl
  | succ n ih =>
    intro l hl
    match l with
    | [] => rfl
    | [c] => rfl
    | a :: b :: rest =>
      simp only [List.length_cons] at hl
      have hbrest : (b :: rest).length ≤ n := by simp only [List.length_cons]; omega
      have hrest : rest.length ≤ n := by omega
      by_cases hm : a = '_' ∧ b.isLower
      · rw [camelKey_cons_cons, if_pos hm]
        rw [camelKey_cons_ne b.toUpper (camelKey rest) (toUpper_ne_underscore hm.2)]
        rw [ih rest hrest]
      · rw [camelKey_cons_cons, if_neg hm]
        have hX := ih (b :: rest) hbrest
        by_cases ha : a = '_'
        · subst ha
          have hbl : b.isLower = false := by
            cases hb : b.isLower
            · rfl
            · exact absurd ⟨rfl, hb⟩ hm
          rcases camelKey_head b rest with ⟨r, hr⟩ | ⟨c, r, hc, hbr, hr⟩
          · rw [hr, camelKey_cons_cons, if_neg, ← hr, hX]
            intro hcon
            rw [hbl] at hcon
            exact Bool.false_ne_true hcon.2
          · rw [hr, camelKey_cons_cons, if_neg, ← hr, hX]
            intro hcon
            have hfalse := toUpper_not_isLower hc
            rw [hfalse] at hcon
            exact Bool.false_ne_true hcon.2
        · rw [camelKey_cons_ne a _ ha, hX]

/-- The regex scan is idempotent on character lists. -/
theorem camelKey_idem (l : List Char) : camelKey (camelKey l) = camelKey l :=
  camelKey_idem_aux l.length l (Nat.le_refl _)

/-- The key conversion is idempotent on strings. -/
theorem camelStr_idem (s : String) : camelStr (camelStr s) = camelStr s := by
  unfold camelStr
  rw [camelKey_idem]

theorem insertAssign_mem {fields : List (String × Json)} {k : String} {v : Json} :
    ∀ kv ∈ insertAssign fields k v, kv ∈ fields ∨ kv = (k, v) := by
  intro kv hkv
  unfold insertAssign at hkv
  split at hkv
  · obtain ⟨kv0, hkv0, heq⟩ := List.mem_map.mp hkv
    by_cases hk : kv0.1 = k
    · right
      rw [if_pos hk] at heq
      exact heq.symm
    · left
      rw [if_neg hk] at heq
      exact heq ▸ hkv0
  · rcases List.mem_append.mp hkv with hmem | hmem
    · exact Or.inl hmem
    · exact Or.inr (List.mem_singleton.mp hmem)

theorem insertAssign_keys (fields : List (String × Json)) (k : String) (v : Json) :
    (insertAssign fields k v).map Prod.fst =
      if fields.any (fun kv => kv.1 = k) then fields.map Prod.fst
      else fields.map Prod.fst ++ [k] := by
  unfold insertAssign
  split
  · rw [List.map_map]
    apply List.map_congr_left
    intro kv _
    by_cases hk : kv.1 = k
    · simp [hk]
    · simp [hk]
  · simp

theorem insertAssign_keys_nodup {fields : List (String × Json)} {k : String} {v : Json}
    (h : (fields.map Prod.fst).Nodup) :
    ((insertAssign fields k v).map Prod.fst).Nodup := by
  rw [insertAssign_keys]
  split
  · exact h
  · rename_i hany
    rw [Bool.not_eq_true, List.any_eq_false] at hany
    refine List.Nodup.append h (List.nodup_singleton k) ?_
    intro x hx hxk
    obtain ⟨kv, hkv, hfst⟩ := List.mem_map.mp hx
    rw [List.mem_singleton] at hxk
    exact absurd (by rw [decide_eq_true_eq, hfst, hxk] : decide (kv.1 = k) = true)
      (by simpa using hany kv hkv)

theorem buildObj_foldl_mem :
    ∀ (entries : List (String × Json)) (acc : List (String × Json)) (kv : String × Json),
      kv ∈ entries.foldl (fun a e => insertAssign a e.1 e.2) acc →
      kv ∈ acc ∨ kv ∈ entries := by
  intro entries
  induction entries with
  | nil => intro acc kv h; exact Or.inl h
  | cons e rest ih =>
    intro acc kv h
    rw [List.foldl_cons] at h
    rcases ih (insertAssign acc e.1 e.2) kv h with hmem | hmem
    · rcases insertAssign_mem kv hmem with hmem' | hmem'
      · exact Or.inl hmem'
      · exact Or.inr (by rw [hmem']; exact List.mem_cons_self e rest)
    · exact Or.inr (List.mem_cons_of_mem e hmem)

theorem buildObj_mem {entries : List (String × Json)} {kv : String × Json}
    (h : kv ∈ buildObj entries) : kv ∈ entries := by
  rcases buildObj_foldl_mem entries [] kv h with hmem | hmem
  · cases hmem
  · exact hmem

theorem buildObj_foldl_keys_nodup :
    ∀ (entries : List (String × Json)) (acc : List (String × Json)),
      (acc.map Prod.fst).Nodup →
      ((entries.foldl (fun a e => insertAssign a e.1 e.2) acc).map Prod.fst).Nodup := by
  intro entries
  induction entries with
  | nil => intro acc h; exact h
  | cons e rest ih =>
    intro acc h
    rw [List.foldl_cons]
    exact ih _ (insertAssign_keys_nodup h)

theorem buildObj_keys_nodup (entries : List (String × Json)) :
    ((buildObj entries).map Prod.fst).Nodup :=
  buildObj_foldl_keys_nodup entries [] (by simp)

theorem buildObj_foldl_id :
    ∀ (entries : List (String × Json)) (acc : List (String × Json)),
      (entries.map Prod.fst).Nodup →
      (∀ x ∈ acc.map Prod.fst, x ∉ entries.map Prod.fst) →
      entries.foldl (fun a e => insertAssign a e.1 e.2) acc = acc ++ entries := by
  intro entries
  induction entries with
  | nil => intro acc _ _; simp
  | cons e rest ih =>
    intro acc hnd hdisj
    rw [List.foldl_cons]
    have hfresh : acc.any (fun kv => kv.1 = e.1) = false := by
      rw [List.any_eq_false]
      intro kv hkv
      rw [decide_eq_true_eq]
      intro hk
      exact hdisj kv.1 (List.mem_map_of_mem Prod.fst hkv)
        (by rw [hk]; exact List.mem_map_of_mem Prod.fst (List.mem_cons_self e rest))
    have hins : insertAssign acc e.1 e.2 = acc ++ [(e.1, e.2)] := by
      unfold insertAssign
      rw [if_neg (by rw [hfresh]; exact Bool.false_ne_true)]
    rw [hins]
    rw [List.map_cons, List.nodup_cons] at hnd
    have hstep := ih (acc ++ [(e.1, e.2)]) hnd.2 ?side
    · rw [hstep, List.append_assoc]
      simp
    case side =>
      intro x hx
      rw [List.map_append] at hx
      rcases List.mem_append.mp hx with hx' | hx'
      · intro hcon
        exact hdisj x hx' (List.mem_cons_of_mem _ hcon)
      · simp only [List.map_cons, List.map_nil, List.mem_singleton] at hx'
        rw [hx']
        exact hnd.1

theorem buildObj_id {entries : List (String × Json)}
    (h : (entries.map Prod.fst).Nodup) : buildObj entries = entries := by
  unfold buildObj
  rw [buildObj_foldl_id entries [] h (by simp)]
  simp

/-- Converting entries that are already fixed points of the conversion
changes nothing. -/
theorem camelCaseKeysFields_of_fixed :
    ∀ l : List (String × Json),
      (∀ kv ∈ l, camelStr kv.1 = kv.1 ∧ camelCaseKeys kv.2 = kv.2) →
      camelCaseKeysFields l = l := by
  intro l
  induction l with
  | nil => intro _; rfl
  | cons kv rest ih =>
    intro h
    have hkv := h kv (List.mem_cons_self kv rest)
    rw [camelCaseKeysFields, hkv.1, hkv.2,
      ih (fun kv' hkv' => h kv' (List.mem_cons_of_mem kv hkv'))]

mutual
theorem camelCaseKeys_idem : (v : Json) → camelCaseKeys (camelCaseKeys v) = camelCaseKeys v
  | .null => rfl
  | .bool _ => rfl
  | .num _ => rfl
  | .str _ => rfl
  | .arr items => by
    simp only [camelCaseKeys]
    rw [camelCaseKeysList_idem items]
  | .obj fields => by
    simp only [camelCaseKeys]
    have hfix : ∀ kv ∈ buildObj (camelCaseKeysFields fields),
        camelStr kv.1 = kv.1 ∧ camelCaseKeys kv.2 = kv.2 := by
      intro kv hkv
      exact camelCaseKeysFields_fixed fields kv (buildObj_mem hkv)
    rw [camelCaseKeysFields_of_fixed _ hfix, buildObj_id (buildObj_keys_nodup _)]

theorem camelCaseKeysList_idem : (xs : List Json) →
    camelCaseKeysList (camelCaseKeysList xs) = camelCaseKeysList xs
  | [] => rfl
  | x :: xs => by
    simp only [camelCaseKeysList]
    rw [camelCaseKeys_idem x, camelCaseKeysList_idem xs]

theorem camelCaseKeysFields_fixed : (fs : List (String × Json)) →
    ∀ kv ∈ camelCaseKeysFields fs,
      camelStr kv.1 = kv.1 ∧ camelCaseKeys kv.2 = kv.2
  | [] => by intro kv hkv; cases hkv
  | (k, v) :: rest => by
    intro kv hkv
    simp only [camelCaseKeysFields] at hkv
    rcases List.mem_cons.mp hkv with heq | hmem
    · subst heq
      exact ⟨camelStr_idem k, camelCaseKeys_idem v⟩
    · exact camelCaseKeysFields_fixed rest kv hmem
end

/-- C10: the key-casing normalization used by the invocation layer is
idempotent: a second pass of `camelCaseKeys` over any JSON-like value
returns exactly the result of the first pass. -/
theorem camelCaseKeys_idempotent (v : Json) :
    camelCaseKeys (camelCaseKeys v) = camelCaseKeys v :=
  camelCaseKeys_idem v

/-! ## Resilient invocation layer (`MultiProviderLLMClient`)

JS optional strings are embedded as plain strings with `""` for the
absent value: both are falsy, and both fail every model lookup, so the
`||`-based selection logic is preserved exactly. -/

/-- Pipeline stage names. -/
inductive StageName where
  | parse
  | clarify
  | decompose
  | execute
deriving DecidableEq, Repr

/-- `PipelineStageConfig`: per-stage model selection and retry policy. -/
structure PipelineStageConfig where
  primary : String
  fallback : String
  timeoutMs : Option Nat
  maxRetries : Option Nat
deriving Repr

/-- The execute stage's extended config: a default model alias and a
task-type-to-model-alias map (`byType`). -/
structure ExecuteStageConfig where
  primary : String
  fallback : String
  timeoutMs : Option Nat
  maxRetries : Option Nat
  default : String
  byType : List (String × String)
deriving Repr

/-- `PipelineConfig`: one entry per stage. -/
structure PipelineConfig where
  parse : PipelineStageConfig
  clarify : PipelineStageConfig
  decompose : PipelineStageConfig
  execute : ExecuteStageConfig
deriving Repr

/-- JS `a || b` on strings: the empty string is the only falsy string. -/
def jsOr (a b : String) : String := if a = "" then b else a

/-- The stage's configured fallback alias (`#getStageConfig(stage).fallback`). -/
def stageFallback (p : PipelineConfig) : StageName → String
  | .parse => p.parse.fallback
  | .clarify => p.clarify.fallback
  | .decompose => p.decompose.fallback
  | .execute => p.execute.fallback

/-- The stage's configured retry count (`#getStageConfig(stage).maxRetries`). -/
def stageMaxRetries (p : PipelineConfig) : StageName → Option Nat
  | .parse => p.parse.maxRetries
  | .clarify => p.clarify.maxRetries
  | .decompose => p.decompose.maxRetries
  | .execute => p.execute.maxRetries

/-- `getModelForStage`: the execute stage resolves through its `default`
alias, other stages through their `primary`, each falling back to the
first configured model key when the configured alias is falsy. -/
def getModelForStage (models : List String) (p : PipelineConfig) : StageName → String
  | .execute => jsOr p.execute.default (models.headD "")
  | .parse => jsOr p.parse.primary (models.headD "")
  | .clarify => jsOr p.clarify.primary (models.headD "")
  | .decompose => jsOr p.decompose.primary (models.headD "")

/-- `LLMExecuteStage.#selectModelForTaskType`:
`this.#config.byType?.[type] || this.#config.default`. -/
def selectModelForTaskType (cfg : ExecuteStageConfig) (taskType : String) : String :=
  jsOr ((cfg.byType.lookup taskType).getD "") cfg.default

/-- The candidate list built by `generate`: the primary (or caller
override), then the stage fallback only when present and distinct. -/
def candidateModels (fallbackAlias primaryModel : String) : List String :=
  primaryModel ::
    (if fallbackAlias ≠ "" ∧ fallbackAlias ≠ primaryModel then [fallbackAlias] else [])

/-- The inner retry loop of `generate` on one candidate model: run
attempts `attemptIdx, attemptIdx+1, ...` while fuel lasts, stop at the
first success.  Returns the result, the log of attempts made (model,
attempt index), and the last error observed.  The attempt oracle stands
for one `#generateOnce` call raced against the stage timeout. -/
def attemptsOnModel {α : Type} (attempt : String → Nat → Except String α)
    (modelAlias : String) : Nat → Nat → Option α × List (String × Nat) × Option String
  | _, 0 => (none, [], none)
  | attemptIdx, fuel + 1 =>
    match attempt modelAlias attemptIdx with
    | .ok r => (some r, [(modelAlias, attemptIdx)], none)
    | .error e =>
      let rec' := attemptsOnModel attempt modelAlias (attemptIdx + 1) fuel
      (rec'.1, (modelAlias, attemptIdx) :: rec'.2.1, some ((rec'.2.2).getD e))

/-- The outer loop of `generate` over candidate models, threading the
last observed error (initialized to the unknown-error placeholder) and
the attempt log. -/
def generateLoop {α : Type} (attempt : String → Nat → Except String α)
    (maxRetries : Nat) :
    List String → String → List (String × Nat) → Except String α × List (String × Nat)
  | [], lastError, attemptLog => (.error lastError, attemptLog)
  | m :: rest, lastError, attemptLog =>
    match attemptsOnModel attempt m 0 (maxRetries + 1) with
    | (some r, tried, _) => (.ok r, attemptLog ++ tried)
    | (none, tried, lastError') =>
      generateLoop attempt maxRetries rest (lastError'.getD lastError) (attemptLog ++ tried)

/-- `MultiProviderLLMClient.generate`: resolve the primary from the
caller override or the stage default, build the candidate list, and run
the retry loop with `Math.max(0, maxRetries ?? 0) + 1` attempts per
candidate.  Returns the result together with the full attempt log. -/
def generate {α : Type} (attempt : String → Nat → Except String α)
    (models : List String) (p : PipelineConfig) (stage : StageName)
    (modelAlias : String) : Except String α × List (String × Nat) :=
  let primaryModel := jsOr modelAlias (getModelForStage models p stage)
  let modelAliases := candidateModels (stageFallback p stage) primaryModel
  let maxRetries := max 0 ((stageMaxRetries p stage).getD 0)
  generateLoop attempt maxRetries modelAliases "Unknown LLM execution error" []

/-- Which side of the `Promise.race` in `#withTimeout` settles first. -/
inductive RaceWinner where
  | settled
  | timerFired
deriving DecidableEq, Repr

/-- `MultiProviderLLMClient.#withTimeout`: without a positive timeout the
underlying result is returned as is; otherwise the race yields either the
underlying result or a timeout rejection. -/
def withTimeout {α : Type} (result : Except String α) (timeoutMs : Option Nat)
    (winner : RaceWinner) (context : String) : Except String α :=
  match timeoutMs with
  | none => result
  | some t =>
    if t = 0 then result
    else
      match winner with
      | .settled => result
      | .timerFired =>
        .error ("LLM timeout after " ++ toString t ++ "ms (" ++ context ++ ")")

theorem attemptsOnModel_fst {α : Type} (attempt : String → Nat → Except String α)
    (modelAlias : String) (attemptIdx fuel : Nat) :
    ∀ e ∈ (attemptsOnModel attempt modelAlias attemptIdx fuel).2.1, e.1 = modelAlias := by
  induction fuel generalizing attemptIdx with
  | zero => intro e he; cases he
  | succ n ih =>
    intro e he
    rw [attemptsOnModel] at he
    cases hres : attempt modelAlias attemptIdx with
    | ok r =>
      rw [hres] at he
      simp only [List.mem_singleton] at he
      rw [he]
    | error err =>
      rw [hres] at he
      simp only [List.mem_cons] at he
      rcases he with he | he
      · rw [he]
      · exact ih (attemptIdx + 1) e he

theorem attemptsOnModel_length {α : Type} (attempt : String → Nat → Except String α)
    (modelAlias : String) (attemptIdx fuel : Nat) :
    (attemptsOnModel attempt modelAlias attemptIdx fuel).2.1.length ≤ fuel := by
  induction fuel generalizing attemptIdx with
  | zero => simp [attemptsOnModel]
  | succ n ih =>
    rw [attemptsOnModel]
    cases hres : attempt modelAlias attemptIdx with
    | ok r => simp
    | error err =>
      simp only [List.length_cons]
      exact Nat.succ_le_succ (ih (attemptIdx + 1))

theorem attemptsOnModel_head {α : Type} (attempt : String → Nat → Except String α)
    (modelAlias : String) (attemptIdx fuel : Nat) :
    (attemptsOnModel attempt modelAlias attemptIdx (fuel + 1)).2.1.head? =
      some (modelAlias, attemptIdx) := by
  rw [attemptsOnModel]
  cases attempt modelAlias attemptIdx with
  | ok r => rfl
  | error err => rfl

theorem generateLoop_trace {α : Type} (attempt : String → Nat → Except String α)
    (maxRetries : Nat) :
    ∀ (cands : List String) (lastError : String) (attemptLog : List (String × Nat)),
      ∃ extra, (generateLoop attempt maxRetries cands lastError attemptLog).2 =
          attemptLog ++ extra ∧
        ∀ m, (extra.filter (fun e => e.1 = m)).length ≤
          cands.count m * (maxRetries + 1) := by
  intro cands
  induction cands with
  | nil =>
    intro lastError attemptLog
    exact ⟨[], by simp [generateLoop], by intro m; simp⟩
  | cons c rest ih =>
    intro lastError attemptLog
    have hfilter : ∀ m, (((attemptsOnModel attempt c 0 (maxRetries + 1)).2.1.filter
        (fun e => e.1 = m)).length ≤ if c = m then maxRetries + 1 else 0) := by
      intro m
      by_cases hcm : c = m
      · rw [if_pos hcm]
        calc ((attemptsOnModel attempt c 0 (maxRetries + 1)).2.1.filter
              (fun e => e.1 = m)).length
            ≤ (attemptsOnModel attempt c 0 (maxRetries + 1)).2.1.length :=
              List.length_filter_le _ _
          _ ≤ maxRetries + 1 := attemptsOnModel_length attempt c 0 (maxRetries + 1)
      · rw [if_neg hcm]
        have hnil : ((attemptsOnModel attempt c 0 (maxRetries + 1)).2.1.filter
            (fun e => e.1 = m)) = [] := by
          rw [List.filter_eq_nil_iff]
          intro e he
          simp only [decide_eq_true_eq]
          rw [attemptsOnModel_fst attempt c 0 (maxRetries + 1) e he]
          exact hcm
        rw [hnil]
        exact Nat.le_refl 0
    have hcount : ∀ m, (if c = m then maxRetries + 1 else 0) +
        rest.count m * (maxRetries + 1) ≤ (c :: rest).count m * (maxRetries + 1) := by
      intro m
      by_cases hcm : c = m
      · subst hcm
        rw [if_pos rfl, List.count_cons_self, Nat.succ_mul]
        omega
      · rw [if_neg hcm, List.count_cons_of_ne (fun h => hcm h.symm)]
        omega
    rw [generateLoop]
    cases hres : attemptsOnModel attempt c 0 (maxRetries + 1) with
    | mk resO prod2 =>
    obtain ⟨tried, lastError'⟩ := prod2
    have htried : ∀ m, ((tried.filter (fun e => e.1 = m)).length ≤
        if c = m then maxRetries + 1 else 0) := by
      intro m
      have := hfilter m
      rw [hres] at this
      exact this
    cases resO with
    | some r =>
      refine ⟨tried, rfl, fun m => ?_⟩
      calc (tried.filter (fun e => e.1 = m)).length
          ≤ if c = m then maxRetries + 1 else 0 := htried m
        _ ≤ (if c = m then maxRetries + 1 else 0) +
            rest.count m * (maxRetries + 1) := Nat.le_add_right _ _
        _ ≤ (c :: rest).count m * (maxRetries + 1) := hcount m
    | none =>
      obtain ⟨extra, hextra, hbound⟩ := ih (lastError'.getD lastError) (attemptLog ++ tried)
      refine ⟨tried ++ extra, by rw [hextra, List.append_assoc], fun m => ?_⟩
      rw [List.filter_append, List.length_append]
      calc (tried.filter (fun e => e.1 = m)).length +
            (extra.filter (fun e => e.1 = m)).length
          ≤ (if c = m then maxRetries + 1 else 0) +
            rest.count m * (maxRetries + 1) := Nat.add_le_add (htried m) (hbound m)
        _ ≤ (c :: rest).count m * (maxRetries + 1) := hcount m

theorem count_pair_le_one {pr fb m : String} (h : fb ≠ pr) :
    ([pr, fb] : List String).count m ≤ 1 := by
  simp only [List.count_cons, List.count_nil]
  by_cases hA : fb = m
  · by_cases hB : pr = m
    · exact absurd (hA.trans hB.symm) h
    · simp [hA, hB]
  · by_cases hB : pr = m
    · simp [hA, hB]
    · simp [hA, hB]

theorem count_singleton_le_one {pr m : String} : ([pr] : List String).count m ≤ 1 := by
  by_cases h : pr = m <;> simp [List.count_cons, List.count_nil, h]

theorem generate_trace_head {α : Type} (attempt : String → Nat → Except String α)
    (models : List String) (p : PipelineConfig) (stage : StageName)
    (modelAlias : String) :
    (generate attempt models p stage modelAlias).2.head? =
      some (jsOr modelAlias (getModelForStage models p stage), 0) := by
  unfold generate candidateModels
  rw [generateLoop]
  cases hres : attemptsOnModel attempt (jsOr modelAlias (getModelForStage models p stage))
      0 (max 0 ((stageMaxRetries p stage).getD 0) + 1) with
  | mk resO prod2 =>
  obtain ⟨tried, lastError'⟩ := prod2
  have hhead : tried.head? =
      some (jsOr modelAlias (getModelForStage models p stage), 0) := by
    have := attemptsOnModel_head attempt (jsOr modelAlias (getModelForStage models p stage))
      0 (max 0 ((stageMaxRetries p stage).getD 0))
    rw [hres] at this
    exact this
  cases resO with
  | some r =>
    simpa using hhead
  | none =>
    obtain ⟨extra, hextra, _⟩ := generateLoop_trace attempt
      (max 0 ((stageMaxRetries p stage).getD 0)) _ (lastError'.getD _) ([] ++ tried)
    simp only
    rw [hextra]
    simp only [List.nil_append]
    rw [List.head?_append_of_ne_nil]
    · exact hhead
    · intro hnil
      rw [hnil] at hhead
      cases hhead

/-- C6: the candidate list is the primary (or caller override) followed
by the configured fallback only when present and distinct; every
candidate is attempted at most `maxRetries + 1` times in one `generate`
call; a fired timeout surfaces as an error result, hence as a retryable
failed attempt; the first successful attempt returns immediately; and in
the `maxRetries = 1` scenario with an always-failing primary, exactly two
attempts hit the primary before the fallback is tried, and a first-try
fallback success makes the call succeed with the fallback's result. -/
theorem generate_retry_and_fallback :
    (∀ fallbackAlias primaryModel : String,
      candidateModels fallbackAlias primaryModel =
        primaryModel :: (if fallbackAlias ≠ "" ∧ fallbackAlias ≠ primaryModel
          then [fallbackAlias] else [])) ∧
    (∀ (α : Type) (attempt : String → Nat → Except String α) (models : List String)
        (p : PipelineConfig) (stage : StageName) (modelAlias m : String),
      ((generate attempt models p stage modelAlias).2.filter
          (fun e => e.1 = m)).length ≤ max 0 ((stageMaxRetries p stage).getD 0) + 1) ∧
    (∀ (α : Type) (result : Except String α) (t : Nat) (context : String), 0 < t →
      withTimeout result (some t) .timerFired context =
        .error ("LLM timeout after " ++ toString t ++ "ms (" ++ context ++ ")")) ∧
    (∀ (α : Type) (attempt : String → Nat → Except String α) (maxRetries : Nat)
        (m : String) (rest : List String) (lastError : String)
        (attemptLog : List (String × Nat)) (r : α), attempt m 0 = .ok r →
      generateLoop attempt maxRetries (m :: rest) lastError attemptLog =
        (.ok r, attemptLog ++ [(m, 0)])) ∧
    (∀ (α : Type) (attempt : String → Nat → Except String α) (models : List String)
        (p : PipelineConfig) (stage : StageName) (modelAlias pm fm e0 e1 : String)
        (r : α),
      jsOr modelAlias (getModelForStage models p stage) = pm →
      stageFallback p stage = fm → fm ≠ "" → fm ≠ pm →
      stageMaxRetries p stage = some 1 →
      attempt pm 0 = .error e0 → attempt pm 1 = .error e1 →
      attempt fm 0 = .ok r →
      generate attempt models p stage modelAlias =
        (.ok r, [(pm, 0), (pm, 1), (fm, 0)])) := by
  refine ⟨fun _ _ => rfl, ?_, ?_, ?_, ?_⟩
  · intro α attempt models p stage modelAlias m
    obtain ⟨extra, hextra, hbound⟩ := generateLoop_trace attempt
      (max 0 ((stageMaxRetries p stage).getD 0))
      (candidateModels (stageFallback p stage)
        (jsOr modelAlias (getModelForStage models p stage)))
      "Unknown LLM execution error" []
    have htrace : (generate attempt models p stage modelAlias).2 = extra := by
      unfold generate
      rw [hextra]
      simp
    rw [htrace]
    have hcount : (candidateModels (stageFallback p stage)
        (jsOr modelAlias (getModelForStage models p stage))).count m ≤ 1 := by
      unfold candidateModels
      split
      · rename_i hcond
        exact count_pair_le_one hcond.2
      · exact count_singleton_le_one
    calc (extra.filter (fun e => e.1 = m)).length
        ≤ (candidateModels (stageFallback p stage)
            (jsOr modelAlias (getModelForStage models p stage))).count m *
          (max 0 ((stageMaxRetries p stage).getD 0) + 1) := hbound m
      _ ≤ 1 * (max 0 ((stageMaxRetries p stage).getD 0) + 1) :=
          Nat.mul_le_mul_right _ hcount
      _ = max 0 ((stageMaxRetries p stage).getD 0) + 1 := Nat.one_mul _
  · intro α result t context ht
    have hdef : withTimeout result (some t) .timerFired context =
        if t = 0 then result
        else .error ("LLM timeout after " ++ toString t ++ "ms (" ++ context ++ ")") := rfl
    rw [hdef, if_neg (Nat.pos_iff_ne_zero.mp ht)]
  · intro α attempt maxRetries m rest lastError attemptLog r h
    rw [generateLoop, attemptsOnModel, h]
  · intro α attempt models p stage modelAlias pm fm e0 e1 r h1 h2 hfne hfpm hmr ha0 ha1 hf0
    have hc : candidateModels fm pm = [pm, fm] := by
      unfold candidateModels
      rw [if_pos ⟨hfne, hfpm⟩]
    have ha : attemptsOnModel attempt pm 0 2 = (none, [(pm, 0), (pm, 1)], some e1) := by
      rw [attemptsOnModel, ha0]
      rw [show (0 + 1 : Nat) = 1 from rfl]
      rw [attemptsOnModel, ha1]
      rfl
    have hb : attemptsOnModel attempt fm 0 2 = (some r, [(fm, 0)], none) := by
      rw [attemptsOnModel, hf0]
    unfold generate
    rw [h1, h2, hmr]
    dsimp only
    rw [hc]
    rw [show (max 0 ((Option.some 1).getD 0) : Nat) = 1 from rfl]
    rw [generateLoop]
    rw [show (1 + 1 : Nat) = 2 from rfl]
    rw [ha]
    dsimp only
    rw [generateLoop]
    rw [show (1 + 1 : Nat) = 2 from rfl]
    rw [hb]
    dsimp only
    simp

/-- A pipeline stage config used in concrete invocation examples. -/
def demoStageConfig : PipelineStageConfig :=
  { primary := "p", fallback := "f", timeoutMs := none, maxRetries := some 1 }

/-- An execute stage config with a `byType` override for code tasks. -/
def demoExecuteConfig : ExecuteStageConfig :=
  { primary := "p", fallback := "f", timeoutMs := none, maxRetries := some 1
  , default := "minimax", byType := [("code", "kimi-k2")] }

/-- The pipeline config used in concrete invocation examples. -/
def demoPipeline : PipelineConfig :=
  { parse := demoStageConfig, clarify := demoStageConfig
  , decompose := demoStageConfig, execute := demoExecuteConfig }

/-- An attempt oracle whose primary always fails and whose fallback
succeeds immediately. -/
def demoAttempt : String → Nat → Except String Nat :=
  fun m _ => if m = "f" then .ok 7 else .error "boom"

/-- Witness for C6: with `maxRetries = 1`, primary `p` failing both
attempts and fallback `f` succeeding at once, the call returns the
fallback's result after exactly two primary attempts. -/
theorem generate_retry_and_fallback_witness :
    generate demoAttempt ["p", "f"] demoPipeline .parse "" =
      (.ok 7, [("p", 0), ("p", 1), ("f", 0)]) :=
  generate_retry_and_fallback.2.2.2.2 Nat demoAttempt ["p", "f"] demoPipeline .parse
    "" "p" "f" "boom" "boom" 7 rfl rfl (by decide) (by decide) rfl rfl rfl rfl

/-- C3: when the execute stage's task-type-to-model map holds an alias
for the task's type, that alias is the primary model of the resulting
`generate` call (its very first attempt); when the map holds no alias for
the type, the stage's configured default is the primary. -/
theorem executeStage_model_selection {α : Type}
    (attempt : String → Nat → Except String α) (models : List String)
    (p : PipelineConfig) (taskType m : String) :
    (p.execute.byType.lookup taskType = some m → m ≠ "" →
      (generate attempt models p .execute
          (selectModelForTaskType p.execute taskType)).2.head? = some (m, 0)) ∧
    (p.execute.byType.lookup taskType = none → p.execute.default ≠ "" →
      (generate attempt models p .execute
          (selectModelForTaskType p.execute taskType)).2.head? =
        some (p.execute.default, 0)) := by
  constructor
  · intro hlook hm
    have hsel : selectModelForTaskType p.execute taskType = m := by
      unfold selectModelForTaskType
      rw [hlook]
      simp only [Option.getD_some]
      unfold jsOr
      rw [if_neg hm]
    rw [generate_trace_head, hsel]
    unfold jsOr
    rw [if_neg hm]
  · intro hlook hd
    have hsel : selectModelForTaskType p.execute taskType = p.execute.default := by
      unfold selectModelForTaskType
      rw [hlook]
      rfl
    rw [generate_trace_head, hsel]
    unfold jsOr
    rw [if_neg hd]

/-- Witness for C3: `code` resolves through the `byType` map to
`kimi-k2`; `research` has no override and resolves to the configured
default `minimax`. -/
theorem executeStage_model_selection_witness :
    (generate demoAttempt ["p", "f"] demoPipeline .execute
        (selectModelForTaskType demoPipeline.execute "code")).2.head? =
      some ("kimi-k2", 0) ∧
    (generate demoAttempt ["p", "f"] demoPipeline .execute
        (selectModelForTaskType demoPipeline.execute "research")).2.head? =
      some ("minimax", 0) := by
  constructor
  · exact (executeStage_model_selection demoAttempt ["p", "f"] demoPipeline
      "code" "kimi-k2").1 rfl (by decide)
  · exact (executeStage_model_selection demoAttempt ["p", "f"] demoPipeline
      "research" "kimi-k2").2 rfl (by decide)

/-! ## Structured generation and the normalization pass
(`#generateOnce`, schema branch) -/

/-- Token usage attached to a provider result or error. -/
structure GenUsage where
  inputTokens : Nat
  outputTokens : Nat
deriving DecidableEq, Repr

/-- A structured-generation result; `text` carries the JSON value whose
stringification the source returns. -/
structure GenResult where
  text : Json
  promptTokens : Nat
  completionTokens : Nat
deriving Repr

/-- Errors escaping the schema branch of `#generateOnce`: a
`NoObjectGeneratedError` (with its optional raw text, carried in parsed
form, and optional usage), or any other provider error. -/
inductive GenError where
  | noObject (rawText : Option Json) (usage : Option GenUsage)
  | other (message : String)
deriving Repr

/-- What the underlying `generateObject` call did: validated object,
validation failure carrying raw returned text (`NoObjectGeneratedError`
with truthy `text`, already parsed), validation failure without usable
text, or another error. -/
inductive GenObjectOutcome where
  | ok (obj : Json) (usage : GenUsage)
  | noObjectErr (rawText : Option Json) (usage : Option GenUsage)
  | otherErr (message : String)
deriving Repr

/-- The schema branch of `#generateOnce.runGeneration`: on success return
the validated object; on a `NoObjectGeneratedError` that carries raw
text, parse it, apply one `camelCaseKeys` pass and return the normalized
value as a successful response with the error's usage counters
(defaulted to 0) — the source performs no revalidation here; any other
error is rethrown unchanged. -/
def runGenerationSchema : GenObjectOutcome → Except GenError GenResult
  | .ok obj usage =>
    .ok { text := obj, promptTokens := usage.inputTokens
        , completionTokens := usage.outputTokens }
  | .noObjectErr rawText usage =>
    match rawText with
    | some raw =>
      .ok { text := camelCaseKeys raw
          , promptTokens := (usage.map GenUsage.inputTokens).getD 0
          , completionTokens := (usage.map GenUsage.outputTokens).getD 0 }
    | none => .error (.noObject none usage)
  | .otherErr message => .error (.other message)

/-- A stand-in for the expected schema of a structured call: the
decomposition schema requires a `tasks` key at the top level. -/
def expectedSchemaCheck : Json → Bool
  | .obj fields => fields.any fun kv => kv.1 = "tasks"
  | _ => false

/-- Counterexample to C2: a validation failure whose raw text still fails
the expected schema after normalization is returned as a success carrying
the normalized value — the original validation error is not propagated,
and no revalidation against the schema happens. -/
theorem generate_normalization_counterexample :
    camelCaseKeys (Json.obj [("wrong_key", Json.null)]) =
      Json.obj [("wrongKey", Json.null)] ∧
    expectedSchemaCheck (Json.obj [("wrongKey", Json.null)]) = false ∧
    runGenerationSchema
        (.noObjectErr (some (Json.obj [("wrong_key", Json.null)])) none) =
      .ok { text := Json.obj [("wrongKey", Json.null)]
          , promptTokens := 0, completionTokens := 0 } :=
  ⟨rfl, rfl, rfl⟩

/-- C2 amended: on a validation failure carrying raw text, the schema
branch applies exactly one key-casing normalization pass and returns the
normalized value as a successful response with the error's usage counters
defaulted to zero, performing no revalidation; a validation failure
without raw text and any other error are propagated unchanged. -/
theorem generate_normalization_no_revalidation :
    (∀ (raw : Json) (usage : Option GenUsage),
      runGenerationSchema (.noObjectErr (some raw) usage) =
        .ok { text := camelCaseKeys raw
            , promptTokens := (usage.map GenUsage.inputTokens).getD 0
            , completionTokens := (usage.map GenUsage.outputTokens).getD 0 }) ∧
    (∀ usage : Option GenUsage,
      runGenerationSchema (.noObjectErr none usage) =
        .error (.noObject none usage)) ∧
    (∀ message : String,
      runGenerationSchema (.otherErr message) = .error (.other message)) :=
  ⟨fun _ _ => rfl, fun _ => rfl, fun _ => rfl⟩

/-! ## Dependency scheduler (`Pipeline.#executeTasksWithDependencies`)

The dispatch of one ready task (`#executeTaskWithAgentMatching`: worker
selection, task-level clarification, claim, state transitions, execution,
reporting) is abstracted as an oracle from the task to its terminal
outcome; the scheduler's own logic — the pass loop over the remaining
map — is embedded exactly.  `report` side effects are not modeled. -/

/-- The terminal outcome `#executeTaskWithAgentMatching` returns for a
dispatched task. -/
inductive DispatchOutcome where
  | completed
  | failed
  | blocked
deriving DecidableEq, Repr

/-- The three id sets maintained by the scheduler. -/
structure SchedState where
  completed : List String
  failed : List String
  blocked : List String
deriving DecidableEq, Repr

/-- One pass over the snapshot of the remaining map
(`Array.from(remaining.entries())`): a task naming an id outside the
batch is blocked and removed; a task with a failed or blocked dependency
is blocked and removed; a task with a dependency not yet completed is
left for a later pass; a ready task is dispatched and removed, its
outcome recorded.  Returns the retained tasks (the new remaining map, in
order), the updated sets, the ids dispatched during the pass, and the
`progressed` flag (set exactly on removal). -/
def runPass (allTaskIds : List String) (dispatch : Task → DispatchOutcome) :
    List Task → SchedState → List Task × SchedState × List String × Bool
  | [], st => ([], st, [], false)
  | task :: rest, st =>
    let unknownDependencies :=
      task.dependencies.filter fun d => !allTaskIds.contains d
    if unknownDependencies ≠ [] then
      let st' := { st with blocked := st.blocked ++ [task.id] }
      let r := runPass allTaskIds dispatch rest st'
      (r.1, r.2.1, r.2.2.1, true)
    else
      let blockedDependencies := task.dependencies.filter fun d =>
        st.failed.contains d || st.blocked.contains d
      if blockedDependencies ≠ [] then
        let st' := { st with blocked := st.blocked ++ [task.id] }
        let r := runPass allTaskIds dispatch rest st'
        (r.1, r.2.1, r.2.2.1, true)
      else
        let waitingDependencies :=
          task.dependencies.filter fun d => !st.completed.contains d
        if waitingDependencies ≠ [] then
          let r := runPass allTaskIds dispatch rest st
          (task :: r.1, r.2.1, r.2.2.1, r.2.2.2)
        else
          let st' :=
            match dispatch task with
            | .completed => { st with completed := st.completed ++ [task.id] }
            | .failed => { st with failed := st.failed ++ [task.id] }
            | .blocked => { st with blocked := st.blocked ++ [task.id] }
          let r := runPass allTaskIds dispatch rest st'
          (r.1, r.2.1, task.id :: r.2.2.1, true)

theorem runPass_length (allTaskIds : List String) (dispatch : Task → DispatchOutcome) :
    ∀ (l : List Task) (st : SchedState),
      (runPass allTaskIds dispatch l st).1.length ≤ l.length ∧
      ((runPass allTaskIds dispatch l st).2.2.2 = true →
        (runPass allTaskIds dispatch l st).1.length < l.length) := by
  intro l
  induction l with
  | nil =>
    intro st
    exact ⟨Nat.le_refl _, by intro h; cases h⟩
  | cons task rest ih =>
    intro st
    rw [runPass]
    dsimp only
    split
    · exact ⟨Nat.le_succ_of_le (ih _).1, fun _ => Nat.lt_succ_of_le (ih _).1⟩
    · split
      · exact ⟨Nat.le_succ_of_le (ih _).1, fun _ => Nat.lt_succ_of_le (ih _).1⟩
      · split
        · constructor
          · exact Nat.succ_le_succ (ih st).1
          · intro hp
            exact Nat.succ_lt_succ ((ih st).2 hp)
        · exact ⟨Nat.le_succ_of_le (ih _).1, fun _ => Nat.lt_succ_of_le (ih _).1⟩

/-- The pass loop: run passes until the remaining map is empty; a pass
with no progress forcibly blocks every still-remaining task and exits.
Returns the final sets, the number of passes run, and the dispatched ids
in order. -/
def schedLoop (allTaskIds : List String) (dispatch : Task → DispatchOutcome)
    (remaining : List Task) (st : SchedState) : SchedState × Nat × List String :=
  if _hrem : remaining = [] then (st, 0, [])
  else
    let r := runPass allTaskIds dispatch remaining st
    if hp : r.2.2.2 = true then
      let next := schedLoop allTaskIds dispatch r.1 r.2.1
      (next.1, next.2.1 + 1, r.2.2.1 ++ next.2.2)
    else
      ({ r.2.1 with blocked := r.2.1.blocked ++ r.1.map Task.id }, 1, r.2.2.1)
termination_by remaining.length
decreasing_by
  exact (runPass_length allTaskIds dispatch remaining st).2 hp

/-- `Pipeline.#executeTasksWithDependencies`: the full batch id set, the
remaining map seeded with every task, empty sets, and the pass loop. -/
def executeTasksWithDependencies (tasks : List Task)
    (dispatch : Task → DispatchOutcome) : SchedState × Nat × List String :=
  schedLoop (tasks.map Task.id) dispatch tasks
    { completed := [], failed := [], blocked := [] }

theorem schedLoop_nil (allTaskIds : List String) (dispatch : Task → DispatchOutcome)
    (st : SchedState) : schedLoop allTaskIds dispatch [] st = (st, 0, []) := by
  rw [schedLoop]
  simp

theorem schedLoop_progress (allTaskIds : List String)
    (dispatch : Task → DispatchOutcome) (remaining : List Task) (st : SchedState)
    (h : remaining ≠ [])
    (hp : (runPass allTaskIds dispatch remaining st).2.2.2 = true) :
    schedLoop allTaskIds dispatch remaining st =
      ((schedLoop allTaskIds dispatch (runPass allTaskIds dispatch remaining st).1
          (runPass allTaskIds dispatch remaining st).2.1).1,
       (schedLoop allTaskIds dispatch (runPass allTaskIds dispatch remaining st).1
          (runPass allTaskIds dispatch remaining st).2.1).2.1 + 1,
       (runPass allTaskIds dispatch remaining st).2.2.1 ++
         (schedLoop allTaskIds dispatch (runPass allTaskIds dispatch remaining st).1
          (runPass allTaskIds dispatch remaining st).2.1).2.2) := by
  rw [schedLoop]
  rw [dif_neg h]
  dsimp only
  rw [dif_pos hp]

theorem schedLoop_stall (allTaskIds : List String)
    (dispatch : Task → DispatchOutcome) (remaining : List Task) (st : SchedState)
    (h : remaining ≠ [])
    (hp : (runPass allTaskIds dispatch remaining st).2.2.2 = false) :
    schedLoop allTaskIds dispatch remaining st =
      ({ (runPass allTaskIds dispatch remaining st).2.1 with
          blocked := (runPass allTaskIds dispatch remaining st).2.1.blocked ++
            (runPass allTaskIds dispatch remaining st).1.map Task.id },
       1, (runPass allTaskIds dispatch remaining st).2.2.1) := by
  rw [schedLoop]
  rw [dif_neg h]
  dsimp only
  rw [dif_neg (by rw [hp]; exact Bool.false_ne_true)]

theorem runPass_noprogress (allTaskIds : List String)
    (dispatch : Task → DispatchOutcome) :
    ∀ (l : List Task) (st : SchedState),
      (runPass allTaskIds dispatch l st).2.2.2 = false →
      (runPass allTaskIds dispatch l st).1 = l ∧
      (runPass allTaskIds dispatch l st).2.1 = st ∧
      (runPass allTaskIds dispatch l st).2.2.1 = [] := by
  intro l
  induction l with
  | nil => intro st _; exact ⟨rfl, rfl, rfl⟩
  | cons task rest ih =>
    intro st hp
    rw [runPass] at hp
    dsimp only at hp
    split at hp
    · rename_i hc1
      simp at hp
    · rename_i hc1
      split at hp
      · rename_i hc2
        simp at hp
      · rename_i hc2
        split at hp
        · rename_i hc3
          dsimp only at hp
          obtain ⟨h1, h2, h3⟩ := ih st hp
          rw [runPass]
          dsimp only
          rw [if_neg hc1, if_neg hc2, if_pos hc3]
          refine ⟨?_, h2, h3⟩
          dsimp only
          rw [h1]
        · simp at hp

/-- Pointwise containment of scheduler states. -/
def stateLe (st st' : SchedState) : Prop :=
  (∀ x ∈ st.completed, x ∈ st'.completed) ∧
  (∀ x ∈ st.failed, x ∈ st'.failed) ∧
  (∀ x ∈ st.blocked, x ∈ st'.blocked)

theorem stateLe_refl (st : SchedState) : stateLe st st :=
  ⟨fun _ h => h, fun _ h => h, fun _ h => h⟩

theorem stateLe_trans {a b c : SchedState} (h1 : stateLe a b) (h2 : stateLe b c) :
    stateLe a c :=
  ⟨fun x hx => h2.1 x (h1.1 x hx), fun x hx => h2.2.1 x (h1.2.1 x hx),
   fun x hx => h2.2.2 x (h1.2.2 x hx)⟩

theorem stateLe_add_blocked (st : SchedState) (ids : List String) :
    stateLe st { st with blocked := st.blocked ++ ids } :=
  ⟨fun _ h => h, fun _ h => h, fun x hx => List.mem_append_left _ hx⟩

theorem runPass_mono (allTaskIds : List String) (dispatch : Task → DispatchOutcome) :
    ∀ (l : List Task) (st : SchedState),
      stateLe st (runPass allTaskIds dispatch l st).2.1 := by
  intro l
  induction l with
  | nil => intro st; exact stateLe_refl st
  | cons task rest ih =>
    intro st
    rw [runPass]
    dsimp only
    split
    · exact stateLe_trans (stateLe_add_blocked st [task.id]) (ih _)
    · split
      · exact stateLe_trans (stateLe_add_blocked st [task.id]) (ih _)
      · split
        · exact ih st
        · refine stateLe_trans ?_ (ih _)
          cases dispatch task with
          | completed =>
            exact ⟨fun x hx => List.mem_append_left _ hx, fun _ h => h, fun _ h => h⟩
          | failed =>
            exact ⟨fun _ h => h, fun x hx => List.mem_append_left _ hx, fun _ h => h⟩
          | blocked =>
            exact ⟨fun _ h => h, fun _ h => h, fun x hx => List.mem_append_left _ hx⟩

theorem runPass_sublist (allTaskIds : List String)
    (dispatch : Task → DispatchOutcome) :
    ∀ (l : List Task) (st : SchedState),
      (runPass allTaskIds dispatch l st).1.Sublist l := by
  intro l
  induction l with
  | nil => intro st; exact List.Sublist.refl []
  | cons task rest ih =>
    intro st
    rw [runPass]
    dsimp only
    split
    · exact List.Sublist.cons task (ih _)
    · split
      · exact List.Sublist.cons task (ih _)
      · split
        · exact List.Sublist.cons₂ task (ih st)
        · exact List.Sublist.cons task (ih _)

theorem runPass_ms (allTaskIds : List String) (dispatch : Task → DispatchOutcome) :
    ∀ (l : List Task) (st : SchedState),
      ((runPass allTaskIds dispatch l st).2.1.completed : Multiset String) +
        ((runPass allTaskIds dispatch l st).2.1.failed : Multiset String) +
        ((runPass allTaskIds dispatch l st).2.1.blocked : Multiset String) +
        (((runPass allTaskIds dispatch l st).1.map Task.id : List String) : Multiset String) =
      (st.completed : Multiset String) + (st.failed : Multiset String) +
        (st.blocked : Multiset String) + ((l.map Task.id : List String) : Multiset String) := by
  intro l
  induction l with
  | nil => intro st; rfl
  | cons task rest ih =>
    intro st
    rw [runPass]
    dsimp only
    split
    · rw [ih]
      dsimp only
      simp only [List.map_cons, ← Multiset.coe_add, ← Multiset.cons_coe,
        ← Multiset.singleton_add, Multiset.coe_nil, add_zero]
      abel
    · split
      · rw [ih]
        dsimp only
        simp only [List.map_cons, ← Multiset.coe_add, ← Multiset.cons_coe,
          ← Multiset.singleton_add, Multiset.coe_nil, add_zero]
        abel
      · split
        · simp only [List.map_cons, ← Multiset.cons_coe, ← Multiset.singleton_add]
          conv_lhs => rw [add_left_comm]
          conv_rhs => rw [add_left_comm]
          rw [ih st]
        · cases hd : dispatch task <;>
          · rw [ih]
            dsimp only
            simp only [List.map_cons, ← Multiset.coe_add, ← Multiset.cons_coe,
              ← Multiset.singleton_add, Multiset.coe_nil, add_zero]
            abel

theorem runPass_settle (allTaskIds : List String) (dispatch : Task → DispatchOutcome) :
    ∀ (l : List Task) (st : SchedState), ∀ t ∈ l,
      t ∈ (runPass allTaskIds dispatch l st).1 ∨
      t.id ∈ (runPass allTaskIds dispatch l st).2.1.completed ∨
      t.id ∈ (runPass allTaskIds dispatch l st).2.1.failed ∨
      t.id ∈ (runPass allTaskIds dispatch l st).2.1.blocked := by
  intro l
  induction l with
  | nil => intro st t ht; cases ht
  | cons task rest ih =>
    intro st t ht
    rw [runPass]
    dsimp only
    rcases List.mem_cons.mp ht with heq | hmem
    · subst heq
      split
      · refine Or.inr (Or.inr (Or.inr ?_))
        exact (runPass_mono allTaskIds dispatch rest _).2.2 t.id
          (List.mem_append_right _ (List.mem_singleton_self _))
      · split
        · refine Or.inr (Or.inr (Or.inr ?_))
          exact (runPass_mono allTaskIds dispatch rest _).2.2 t.id
            (List.mem_append_right _ (List.mem_singleton_self _))
        · split
          · exact Or.inl (List.mem_cons_self _ _)
          · cases hd : dispatch t
            · refine Or.inr (Or.inl ?_)
              exact (runPass_mono allTaskIds dispatch rest _).1 t.id
                (List.mem_append_right _ (List.mem_singleton_self _))
            · refine Or.inr (Or.inr (Or.inl ?_))
              exact (runPass_mono allTaskIds dispatch rest _).2.1 t.id
                (List.mem_append_right _ (List.mem_singleton_self _))
            · refine Or.inr (Or.inr (Or.inr ?_))
              exact (runPass_mono allTaskIds dispatch rest _).2.2 t.id
                (List.mem_append_right _ (List.mem_singleton_self _))
    · split
      · exact ih _ t hmem
      · split
        · exact ih _ t hmem
        · split
          · rcases ih st t hmem with h | h
            · exact Or.inl (List.mem_cons_of_mem _ h)
            · exact Or.inr h
          · exact ih _ t hmem

theorem runPass_dispatch_src (allTaskIds : List String)
    (dispatch : Task → DispatchOutcome) :
    ∀ (l : List Task) (st : SchedState), ∀ d ∈ (runPass allTaskIds dispatch l st).2.2.1,
      ∃ t ∈ l, t.id = d ∧ (∀ dep ∈ t.dependencies, dep ∈ allTaskIds) ∧
        (∀ dep ∈ t.dependencies, dep ∈ (runPass allTaskIds dispatch l st).2.1.completed) := by
  intro l
  induction l with
  | nil => intro st d hd; cases hd
  | cons task rest ih =>
    intro st d hd
    rw [runPass] at hd ⊢
    dsimp only at hd ⊢
    split at hd <;> rename_i hc1
    · obtain ⟨t, htmem, htid, htdeps, htcompl⟩ := ih _ d hd
      rw [if_pos hc1]
      exact ⟨t, List.mem_cons_of_mem _ htmem, htid, htdeps, htcompl⟩
    · split at hd <;> rename_i hc2
      · obtain ⟨t, htmem, htid, htdeps, htcompl⟩ := ih _ d hd
        rw [if_neg hc1, if_pos hc2]
        exact ⟨t, List.mem_cons_of_mem _ htmem, htid, htdeps, htcompl⟩
      · split at hd <;> rename_i hc3
        · obtain ⟨t, htmem, htid, htdeps, htcompl⟩ := ih st d hd
          rw [if_neg hc1, if_neg hc2, if_pos hc3]
          exact ⟨t, List.mem_cons_of_mem _ htmem, htid, htdeps, htcompl⟩
        · rw [if_neg hc1, if_neg hc2, if_neg hc3]
          have hunknown : ∀ dep ∈ task.dependencies, dep ∈ allTaskIds := by
            intro dep hdep
            have h0 : task.dependencies.filter
                (fun d => !allTaskIds.contains d) = [] := not_ne_iff.mp hc1
            have h1 := List.filter_eq_nil_iff.mp h0 dep hdep
            simpa using h1
          have hready : ∀ dep ∈ task.dependencies, dep ∈ st.completed := by
            intro dep hdep
            have h0 : task.dependencies.filter
                (fun d => !st.completed.contains d) = [] := not_ne_iff.mp hc3
            have h1 := List.filter_eq_nil_iff.mp h0 dep hdep
            simpa using h1
          rcases List.mem_cons.mp hd with heq | hmem
          · refine ⟨task, List.mem_cons_self _ _, heq.symm, hunknown, ?_⟩
            intro dep hdep
            have hbase := hready dep hdep
            have hmono := runPass_mono allTaskIds dispatch rest
              (match dispatch task with
                | .completed => { st with completed := st.completed ++ [task.id] }
                | .failed => { st with failed := st.failed ++ [task.id] }
                | .blocked => { st with blocked := st.blocked ++ [task.id] })
            refine hmono.1 dep ?_
            cases dispatch task
            · exact List.mem_append_left _ hbase
            · exact hbase
            · exact hbase
          · obtain ⟨t, htmem, htid, htdeps, htcompl⟩ := ih _ d hmem
            exact ⟨t, List.mem_cons_of_mem _ htmem, htid, htdeps, htcompl⟩

theorem runPass_added_src (allTaskIds : List String)
    (dispatch : Task → DispatchOutcome) :
    ∀ (l : List Task) (st : SchedState),
      (∀ x ∈ (runPass allTaskIds dispatch l st).2.1.completed,
        x ∈ st.completed ∨ x ∈ (runPass allTaskIds dispatch l st).2.2.1) ∧
      (∀ x ∈ (runPass allTaskIds dispatch l st).2.1.failed,
        x ∈ st.failed ∨ x ∈ (runPass allTaskIds dispatch l st).2.2.1) := by
  intro l
  induction l with
  | nil => intro st; exact ⟨fun x hx => Or.inl hx, fun x hx => Or.inl hx⟩
  | cons task rest ih =>
    intro st
    rw [runPass]
    dsimp only
    split
    · exact ⟨fun x hx => (ih _).1 x hx, fun x hx => (ih _).2 x hx⟩
    · split
      · exact ⟨fun x hx => (ih _).1 x hx, fun x hx => (ih _).2 x hx⟩
      · split
        · exact ⟨fun x hx => (ih st).1 x hx, fun x hx => (ih st).2 x hx⟩
        · cases hd : dispatch task
          · constructor
            · intro x hx
              rcases (ih _).1 x hx with hx' | hx'
              · rcases List.mem_append.mp hx' with hx'' | hx''
                · exact Or.inl hx''
                · exact Or.inr (by
                    rw [List.mem_singleton] at hx''
                    rw [hx'']
                    exact List.mem_cons_self _ _)
              · exact Or.inr (List.mem_cons_of_mem _ hx')
            · intro x hx
              rcases (ih _).2 x hx with hx' | hx'
              · exact Or.inl hx'
              · exact Or.inr (List.mem_cons_of_mem _ hx')
          · constructor
            · intro x hx
              rcases (ih _).1 x hx with hx' | hx'
              · exact Or.inl hx'
              · exact Or.inr (List.mem_cons_of_mem _ hx')
            · intro x hx
              rcases (ih _).2 x hx with hx' | hx'
              · rcases List.mem_append.mp hx' with hx'' | hx''
                · exact Or.inl hx''
                · exact Or.inr (by
                    rw [List.mem_singleton] at hx''
                    rw [hx'']
                    exact List.mem_cons_self _ _)
              · exact Or.inr (List.mem_cons_of_mem _ hx')
          · constructor
            · intro x hx
              rcases (ih _).1 x hx with hx' | hx'
              · exact Or.inl hx'
              · exact Or.inr (List.mem_cons_of_mem _ hx')
            · intro x hx
              rcases (ih _).2 x hx with hx' | hx'
              · exact Or.inl hx'
              · exact Or.inr (List.mem_cons_of_mem _ hx')

theorem schedLoop_mono (allTaskIds : List String) (dispatch : Task → DispatchOutcome) :
    ∀ (n : Nat) (remaining : List Task) (st : SchedState), remaining.length ≤ n →
      stateLe st (schedLoop allTaskIds dispatch remaining st).1 := by
  intro n
  induction n with
  | zero =>
    intro remaining st hlen
    obtain rfl := List.length_eq_zero.mp (Nat.le_zero.mp hlen)
    rw [schedLoop_nil]
    exact stateLe_refl st
  | succ n ih =>
    intro remaining st hlen
    by_cases hrem : remaining = []
    · subst hrem
      rw [schedLoop_nil]
      exact stateLe_refl st
    · by_cases hp : (runPass allTaskIds dispatch remaining st).2.2.2 = true
      · rw [schedLoop_progress allTaskIds dispatch remaining st hrem hp]
        refine stateLe_trans (runPass_mono allTaskIds dispatch remaining st) ?_
        refine ih _ _ ?_
        have := (runPass_length allTaskIds dispatch remaining st).2 hp
        omega
      · have hp' : (runPass allTaskIds dispatch remaining st).2.2.2 = false := by
          simpa using hp
        rw [schedLoop_stall allTaskIds dispatch remaining st hrem hp']
        exact stateLe_trans (runPass_mono allTaskIds dispatch remaining st)
          (stateLe_add_blocked _ _)

theorem schedLoop_ms (allTaskIds : List String) (dispatch : Task → DispatchOutcome) :
    ∀ (n : Nat) (remaining : List Task) (st : SchedState), remaining.length ≤ n →
      ((schedLoop allTaskIds dispatch remaining st).1.completed : Multiset String) +
        ((schedLoop allTaskIds dispatch remaining st).1.failed : Multiset String) +
        ((schedLoop allTaskIds dispatch remaining st).1.blocked : Multiset String) =
      (st.completed : Multiset String) + (st.failed : Multiset String) +
        (st.blocked : Multiset String) +
        ((remaining.map Task.id : List String) : Multiset String) := by
  intro n
  induction n with
  | zero =>
    intro remaining st hlen
    obtain rfl := List.length_eq_zero.mp (Nat.le_zero.mp hlen)
    rw [schedLoop_nil]
    simp
  | succ n ih =>
    intro remaining st hlen
    by_cases hrem : remaining = []
    · subst hrem
      rw [schedLoop_nil]
      simp
    · by_cases hp : (runPass allTaskIds dispatch remaining st).2.2.2 = true
      · rw [schedLoop_progress allTaskIds dispatch remaining st hrem hp]
        dsimp only
        rw [ih _ _ (by
          have := (runPass_length allTaskIds dispatch remaining st).2 hp
          omega)]
        exact runPass_ms allTaskIds dispatch remaining st
      · have hp' : (runPass allTaskIds dispatch remaining st).2.2.2 = false := by
          simpa using hp
        rw [schedLoop_stall allTaskIds dispatch remaining st hrem hp']
        dsimp only
        simp only [← Multiset.coe_add]
        rw [← add_assoc]
        exact runPass_ms allTaskIds dispatch remaining st

theorem schedLoop_settle (allTaskIds : List String) (dispatch : Task → DispatchOutcome) :
    ∀ (n : Nat) (remaining : List Task) (st : SchedState), remaining.length ≤ n →
      ∀ t ∈ remaining,
        t.id ∈ (schedLoop allTaskIds dispatch remaining st).1.completed ∨
        t.id ∈ (schedLoop allTaskIds dispatch remaining st).1.failed ∨
        t.id ∈ (schedLoop allTaskIds dispatch remaining st).1.blocked := by
  intro n
  induction n with
  | zero =>
    intro remaining st hlen t ht
    obtain rfl := List.length_eq_zero.mp (Nat.le_zero.mp hlen)
    cases ht
  | succ n ih =>
    intro remaining st hlen t ht
    by_cases hrem : remaining = []
    · subst hrem
      cases ht
    · by_cases hp : (runPass allTaskIds dispatch remaining st).2.2.2 = true
      · rw [schedLoop_progress allTaskIds dispatch remaining st hrem hp]
        dsimp only
        have hlen' : (runPass allTaskIds dispatch remaining st).1.length ≤ n := by
          have := (runPass_length allTaskIds dispatch remaining st).2 hp
          omega
        rcases runPass_settle allTaskIds dispatch remaining st t ht with hret | hC | hF | hB
        · exact ih _ _ hlen' t hret
        · exact Or.inl ((schedLoop_mono allTaskIds dispatch n _ _ hlen').1 t.id hC)
        · exact Or.inr (Or.inl
            ((schedLoop_mono allTaskIds dispatch n _ _ hlen').2.1 t.id hF))
        · exact Or.inr (Or.inr
            ((schedLoop_mono allTaskIds dispatch n _ _ hlen').2.2 t.id hB))
      · have hp' : (runPass allTaskIds dispatch remaining st).2.2.2 = false := by
          simpa using hp
        rw [schedLoop_stall allTaskIds dispatch remaining st hrem hp']
        dsimp only
        refine Or.inr (Or.inr (List.mem_append_right _ ?_))
        rw [(runPass_noprogress allTaskIds dispatch remaining st hp').1]
        exact List.mem_map_of_mem Task.id ht

theorem schedLoop_dispatch_src (allTaskIds : List String)
    (dispatch : Task → DispatchOutcome) :
    ∀ (n : Nat) (remaining : List Task) (st : SchedState), remaining.length ≤ n →
      ∀ d ∈ (schedLoop allTaskIds dispatch remaining st).2.2,
        ∃ t ∈ remaining, t.id = d ∧ (∀ dep ∈ t.dependencies, dep ∈ allTaskIds) ∧
          (∀ dep ∈ t.dependencies,
            dep ∈ (schedLoop allTaskIds dispatch remaining st).1.completed) := by
  intro n
  induction n with
  | zero =>
    intro remaining st hlen d hd
    obtain rfl := List.length_eq_zero.mp (Nat.le_zero.mp hlen)
    rw [schedLoop_nil] at hd
    cases hd
  | succ n ih =>
    intro remaining st hlen d hd
    by_cases hrem : remaining = []
    · subst hrem
      rw [schedLoop_nil] at hd
      cases hd
    · by_cases hp : (runPass allTaskIds dispatch remaining st).2.2.2 = true
      · rw [schedLoop_progress allTaskIds dispatch remaining st hrem hp] at hd ⊢
        dsimp only at hd ⊢
        have hlen' : (runPass allTaskIds dispatch remaining st).1.length ≤ n := by
          have := (runPass_length allTaskIds dispatch remaining st).2 hp
          omega
        rcases List.mem_append.mp hd with hd' | hd'
        · obtain ⟨t, htmem, htid, htdeps, htcompl⟩ :=
            runPass_dispatch_src allTaskIds dispatch remaining st d hd'
          refine ⟨t, htmem, htid, htdeps, fun dep hdep => ?_⟩
          exact (schedLoop_mono allTaskIds dispatch n _ _ hlen').1 dep (htcompl dep hdep)
        · obtain ⟨t, htmem, htid, htdeps, htcompl⟩ := ih _ _ hlen' d hd'
          exact ⟨t, (runPass_sublist allTaskIds dispatch remaining st).subset htmem,
            htid, htdeps, htcompl⟩
      · have hp' : (runPass allTaskIds dispatch remaining st).2.2.2 = false := by
          simpa using hp
        rw [schedLoop_stall allTaskIds dispatch remaining st hrem hp'] at hd
        dsimp only at hd
        rw [(runPass_noprogress allTaskIds dispatch remaining st hp').2.2] at hd
        cases hd

theorem schedLoop_added_src (allTaskIds : List String)
    (dispatch : Task → DispatchOutcome) :
    ∀ (n : Nat) (remaining : List Task) (st : SchedState), remaining.length ≤ n →
      (∀ x ∈ (schedLoop allTaskIds dispatch remaining st).1.completed,
        x ∈ st.completed ∨ x ∈ (schedLoop allTaskIds dispatch remaining st).2.2) ∧
      (∀ x ∈ (schedLoop allTaskIds dispatch remaining st).1.failed,
        x ∈ st.failed ∨ x ∈ (schedLoop allTaskIds dispatch remaining st).2.2) := by
  intro n
  induction n with
  | zero =>
    intro remaining st hlen
    obtain rfl := List.length_eq_zero.mp (Nat.le_zero.mp hlen)
    rw [schedLoop_nil]
    exact ⟨fun x hx => Or.inl hx, fun x hx => Or.inl hx⟩
  | succ n ih =>
    intro remaining st hlen
    by_cases hrem : remaining = []
    · subst hrem
      rw [schedLoop_nil]
      exact ⟨fun x hx => Or.inl hx, fun x hx => Or.inl hx⟩
    · by_cases hp : (runPass allTaskIds dispatch remaining st).2.2.2 = true
      · rw [schedLoop_progress allTaskIds dispatch remaining st hrem hp]
        dsimp only
        have hlen' : (runPass allTaskIds dispatch remaining st).1.length ≤ n := by
          have := (runPass_length allTaskIds dispatch remaining st).2 hp
          omega
        constructor
        · intro x hx
          rcases (ih _ _ hlen').1 x hx with hx' | hx'
          · rcases (runPass_added_src allTaskIds dispatch remaining st).1 x hx' with h | h
            · exact Or.inl h
            · exact Or.inr (List.mem_append_left _ h)
          · exact Or.inr (List.mem_append_right _ hx')
        · intro x hx
          rcases (ih _ _ hlen').2 x hx with hx' | hx'
          · rcases (runPass_added_src allTaskIds dispatch remaining st).2 x hx' with h | h
            · exact Or.inl h
            · exact Or.inr (List.mem_append_left _ h)
          · exact Or.inr (List.mem_append_right _ hx')
      · have hp' : (runPass allTaskIds dispatch remaining st).2.2.2 = false := by
          simpa using hp
        rw [schedLoop_stall allTaskIds dispatch remaining st hrem hp']
        dsimp only
        rw [(runPass_noprogress allTaskIds dispatch remaining st hp').2.1]
        exact ⟨fun x hx => Or.inl hx, fun x hx => Or.inl hx⟩

theorem schedLoop_passes (allTaskIds : List String)
    (dispatch : Task → DispatchOutcome) :
    ∀ (n : Nat) (remaining : List Task) (st : SchedState), remaining.length ≤ n →
      (schedLoop allTaskIds dispatch remaining st).2.1 ≤ remaining.length := by
  intro n
  induction n with
  | zero =>
    intro remaining st hlen
    obtain rfl := List.length_eq_zero.mp (Nat.le_zero.mp hlen)
    rw [schedLoop_nil]
    exact Nat.le_refl 0
  | succ n ih =>
    intro remaining st hlen
    by_cases hrem : remaining = []
    · subst hrem
      rw [schedLoop_nil]
      exact Nat.le_refl 0
    · by_cases hp : (runPass allTaskIds dispatch remaining st).2.2.2 = true
      · rw [schedLoop_progress allTaskIds dispatch remaining st hrem hp]
        dsimp only
        have hlt := (runPass_length allTaskIds dispatch remaining st).2 hp
        have := ih (runPass allTaskIds dispatch remaining st).1
          (runPass allTaskIds dispatch remaining st).2.1 (by omega)
        omega
      · have hp' : (runPass allTaskIds dispatch remaining st).2.2.2 = false := by
          simpa using hp
        rw [schedLoop_stall allTaskIds dispatch remaining st hrem hp']
        dsimp only
        have := List.length_pos.mpr hrem
        omega

theorem executeTasks_disjoint (tasks : List Task)
    (dispatch : Task → DispatchOutcome) (hnd : (tasks.map Task.id).Nodup) :
    ∀ x ∈ (executeTasksWithDependencies tasks dispatch).1.completed,
      x ∉ (executeTasksWithDependencies tasks dispatch).1.failed ∧
      x ∉ (executeTasksWithDependencies tasks dispatch).1.blocked := by
  have hms := schedLoop_ms (tasks.map Task.id) dispatch tasks.length tasks
    { completed := [], failed := [], blocked := [] } (Nat.le_refl _)
  simp only [Multiset.coe_nil, zero_add] at hms
  have hnodup : (((executeTasksWithDependencies tasks dispatch).1.completed :
      Multiset String) +
      ((executeTasksWithDependencies tasks dispatch).1.failed : Multiset String) +
      ((executeTasksWithDependencies tasks dispatch).1.blocked : Multiset String)).Nodup := by
    rw [show executeTasksWithDependencies tasks dispatch =
      schedLoop (tasks.map Task.id) dispatch tasks
        { completed := [], failed := [], blocked := [] } from rfl]
    rw [hms]
    exact Multiset.coe_nodup.mpr hnd
  intro x hx
  have hd1 := Multiset.disjoint_of_nodup_add hnodup
  have hCF := (Multiset.nodup_add.mp hnodup).1
  have hdCF := Multiset.disjoint_of_nodup_add hCF
  constructor
  · intro hcon
    exact (Multiset.disjoint_left.mp hdCF (Multiset.mem_coe.mpr hx))
      (Multiset.mem_coe.mpr hcon)
  · intro hcon
    exact (Multiset.disjoint_left.mp hd1
        (Multiset.mem_add.mpr (Or.inl (Multiset.mem_coe.mpr hx))))
      (Multiset.mem_coe.mpr hcon)

/-- C4: any task naming a dependency outside the batch id set, or naming
a dependency that ends in the failed or blocked sets, finishes in the
blocked set and is never dispatched — `#executeTaskWithAgentMatching`
(worker selection, clarification, claim, transitions, execution) is never
invoked for it. -/
theorem scheduler_blocks_bad_dependencies (tasks : List Task)
    (dispatch : Task → DispatchOutcome) (t : Task)
    (hnd : (tasks.map Task.id).Nodup) (ht : t ∈ tasks)
    (hbad : (∃ d ∈ t.dependencies, d ∉ tasks.map Task.id) ∨
      (∃ d ∈ t.dependencies,
        d ∈ (executeTasksWithDependencies tasks dispatch).1.failed ∨
        d ∈ (executeTasksWithDependencies tasks dispatch).1.blocked)) :
    t.id ∈ (executeTasksWithDependencies tasks dispatch).1.blocked ∧
    t.id ∉ (executeTasksWithDependencies tasks dispatch).2.2 := by
  have hdef : executeTasksWithDependencies tasks dispatch =
      schedLoop (tasks.map Task.id) dispatch tasks
        { completed := [], failed := [], blocked := [] } := rfl
  have hnotdisp : t.id ∉ (executeTasksWithDependencies tasks dispatch).2.2 := by
    intro hdisp
    rw [hdef] at hdisp
    obtain ⟨t', ht', hid, hdepsAll, hdepsCompl⟩ :=
      schedLoop_dispatch_src (tasks.map Task.id) dispatch tasks.length tasks
        { completed := [], failed := [], blocked := [] } (Nat.le_refl _) t.id hdisp
    have hteq : t' = t := List.inj_on_of_nodup_map hnd ht' ht hid
    subst hteq
    rcases hbad with ⟨d, hd, hdnot⟩ | ⟨d, hd, hdor⟩
    · exact hdnot (hdepsAll d hd)
    · have hdc : d ∈ (executeTasksWithDependencies tasks dispatch).1.completed := by
        rw [hdef]
        exact hdepsCompl d hd
      rcases hdor with hdf | hdb
      · exact (executeTasks_disjoint tasks dispatch hnd d hdc).1 hdf
      · exact (executeTasks_disjoint tasks dispatch hnd d hdc).2 hdb
  refine ⟨?_, hnotdisp⟩
  have hsettle : t.id ∈ (executeTasksWithDependencies tasks dispatch).1.completed ∨
      t.id ∈ (executeTasksWithDependencies tasks dispatch).1.failed ∨
      t.id ∈ (executeTasksWithDependencies tasks dispatch).1.blocked := by
    rw [hdef]
    exact schedLoop_settle (tasks.map Task.id) dispatch tasks.length tasks
      { completed := [], failed := [], blocked := [] } (Nat.le_refl _) t ht
  rcases hsettle with hC | hF | hB
  · exfalso
    have := (schedLoop_added_src (tasks.map Task.id) dispatch tasks.length tasks
      { completed := [], failed := [], blocked := [] } (Nat.le_refl _)).1 t.id
      (by rw [hdef] at hC; exact hC)
    rcases this with h | h
    · cases h
    · exact hnotdisp (by rw [hdef]; exact h)
  · exfalso
    have := (schedLoop_added_src (tasks.map Task.id) dispatch tasks.length tasks
      { completed := [], failed := [], blocked := [] } (Nat.le_refl _)).2 t.id
      (by rw [hdef] at hF; exact hF)
    rcases this with h | h
    · cases h
    · exact hnotdisp (by rw [hdef]; exact h)
  · exact hB

/-- A task with an unknown dependency, for concrete scheduler runs. -/
def taskC : Task := { sampleTask .pending with id := "C", dependencies := ["Z"] }

/-- Witness for C4: task C depends on the nonexistent id Z; the scheduler
blocks C and never dispatches it. -/
theorem scheduler_blocks_bad_dependencies_witness :
    taskC.id ∈ (executeTasksWithDependencies [taskC]
      (fun _ => DispatchOutcome.completed)).1.blocked ∧
    taskC.id ∉ (executeTasksWithDependencies [taskC]
      (fun _ => DispatchOutcome.completed)).2.2 :=
  scheduler_blocks_bad_dependencies [taskC] (fun _ => DispatchOutcome.completed)
    taskC (by decide) (List.mem_singleton_self taskC)
    (Or.inl ⟨"Z", by decide, by decide⟩)

/-- Task A of the 2-cycle example: depends on B. -/
def taskA : Task := { sampleTask .pending with id := "A", dependencies := ["B"] }

/-- Task B of the 2-cycle example: depends on A. -/
def taskB : Task := { sampleTask .pending with id := "B", dependencies := ["A"] }

/-- C5: the dependency scheduler terminates — the loop runs at most
`|tasks|` passes; whenever a pass removes nothing, every still-remaining
task is forcibly blocked and the loop exits after that single pass; and
on the 2-task mutual cycle both tasks end blocked after exactly one
no-progress pass, with nothing dispatched, for every dispatch oracle. -/
theorem scheduler_terminates :
    (∀ (tasks : List Task) (dispatch : Task → DispatchOutcome),
      (executeTasksWithDependencies tasks dispatch).2.1 ≤ tasks.length) ∧
    (∀ (allTaskIds : List String) (dispatch : Task → DispatchOutcome)
        (remaining : List Task) (st : SchedState), remaining ≠ [] →
      (runPass allTaskIds dispatch remaining st).2.2.2 = false →
      (∀ t ∈ remaining,
        t.id ∈ (schedLoop allTaskIds dispatch remaining st).1.blocked) ∧
      (schedLoop allTaskIds dispatch remaining st).2.1 = 1) ∧
    (∀ dispatch : Task → DispatchOutcome,
      executeTasksWithDependencies [taskA, taskB] dispatch =
        ({ completed := [], failed := [], blocked := ["A", "B"] }, 1, [])) := by
  refine ⟨?_, ?_, ?_⟩
  · intro tasks dispatch
    exact schedLoop_passes (tasks.map Task.id) dispatch tasks.length tasks
      { completed := [], failed := [], blocked := [] } (Nat.le_refl _)
  · intro allTaskIds dispatch remaining st hrem hp
    rw [schedLoop_stall allTaskIds dispatch remaining st hrem hp]
    refine ⟨fun t ht => ?_, rfl⟩
    refine List.mem_append_right _ ?_
    rw [(runPass_noprogress allTaskIds dispatch remaining st hp).1]
    exact List.mem_map_of_mem Task.id ht
  · intro dispatch
    have hr : runPass ([taskA, taskB].map Task.id) dispatch [taskA, taskB]
        { completed := [], failed := [], blocked := [] } =
        ([taskA, taskB], { completed := [], failed := [], blocked := [] },
          [], false) := rfl
    rw [show executeTasksWithDependencies [taskA, taskB] dispatch =
      schedLoop ([taskA, taskB].map Task.id) dispatch [taskA, taskB]
        { completed := [], failed := [], blocked := [] } from rfl]
    rw [schedLoop_stall _ dispatch [taskA, taskB] _ (List.cons_ne_nil _ _)
      (by rw [hr])]
    rw [hr]
    rfl

/-- Witness for C5: a single task waiting on a dependency that never
completes makes a no-progress pass; the theorem's stall clause blocks it
and the loop exits after exactly that one pass. -/
theorem scheduler_terminates_witness :
    taskA.id ∈ (schedLoop ["A", "B"] (fun _ => DispatchOutcome.completed) [taskA]
      { completed := [], failed := [], blocked := [] }).1.blocked ∧
    (schedLoop ["A", "B"] (fun _ => DispatchOutcome.completed) [taskA]
      { completed := [], failed := [], blocked := [] }).2.1 = 1 := by
  have h := scheduler_terminates.2.1 ["A", "B"] (fun _ => DispatchOutcome.completed)
    [taskA] { completed := [], failed := [], blocked := [] }
    (List.cons_ne_nil _ _) rfl
  exact ⟨h.1 taskA (List.mem_singleton_self taskA), h.2⟩

end AgentOS
